import Mathlib

/-!
Verification of the multi-source receipt aggregation core of
`scripts/agents/receipt_analysis_workflow.py` (function `aggregate_results`).

The Python code is shallowly embedded below.  Python floats are modelled as
exact rationals (ℚ); Python `Optional` values as `Option`; the `raw_response`
dict as an association list of string pairs (only key membership matters to the
aggregation logic).  Python truthiness of an `Optional[str]` (`None` and `""`
are falsy) is `strPresent`; truthiness of an `Optional[float]` guard written
`is not None` in the code is `Option.isSome`.  Python `list.sort(reverse=True)`
is a stable descending sort; it is modelled by Mathlib insertion sort, which is
stable and sorts with respect to the given total preorder.
-/

namespace Receipts

/-- A line item dict as produced by the extraction agents: the merge logic only
inspects the `description` key, the rest of the dict is carried along. -/
structure Item where
  description : Option String := none
  quantity : Option ℚ := none
  price : Option ℚ := none
  total_price : Option ℚ := none
deriving DecidableEq

/-- Embeds the pydantic model `ReceiptExtractionResult`. -/
structure ReceiptExtractionResult where
  source : String
  merchant_name : Option String := none
  transaction_date : Option String := none
  transaction_time : Option String := none
  total_amount : Option ℚ := none
  currency : Option String := none
  items : List Item := []
  raw_response : List (String × String) := []
  confidence_score : Option ℚ := none
  blob_name : String := ""
deriving DecidableEq

/-- Python truthiness of an `Optional[str]` value: `None` and `""` are falsy. -/
def strPresent : Option String → Bool
  | some s => s ≠ ""
  | none => false

/-- Embeds `isinstance(r.raw_response, dict) and 'error' in r.raw_response`:
the result carries an error marker. -/
def hasError (r : ReceiptExtractionResult) : Bool :=
  r.raw_response.any (fun kv => kv.1 = "error")

/-- Embeds `[r for r in results if not isinstance(r.raw_response, dict) or
'error' not in r.raw_response]`. -/
def validResults (l : List ReceiptExtractionResult) : List ReceiptExtractionResult :=
  l.filter (fun r => !hasError r)

/-- Embeds the `source_priorities` dict lookup with default `0`. -/
def sourcePriorityOf (s : String) : ℚ :=
  if s = "document_intelligence" then 3
  else if s = "mistral" then 2
  else if s = "direct_extraction" then 1
  else 0

/-- Embeds the `completeness_score` accumulation of `aggregate_results`. -/
def completeness_score (r : ReceiptExtractionResult) : ℚ :=
  (if strPresent r.merchant_name then 2 else 0)
  + (if strPresent r.transaction_date then 2 else 0)
  + (if r.total_amount.isSome then 3 else 0)
  + (if strPresent r.currency then 1 else 0)
  + (if !r.items.isEmpty then min ((r.items.length : ℚ) * (1/2)) 5 else 0)
  + (if strPresent r.transaction_time then 1 else 0)

/-- Embeds the `field_counts` accumulation of `aggregate_results`. -/
def field_counts (r : ReceiptExtractionResult) : ℕ :=
  (if strPresent r.merchant_name then 1 else 0)
  + (if strPresent r.transaction_date then 1 else 0)
  + (if r.total_amount.isSome then 1 else 0)
  + (if strPresent r.currency then 1 else 0)
  + (if !r.items.isEmpty then 1 else 0)
  + (if strPresent r.transaction_time then 1 else 0)

/-- Embeds `completeness_score / field_counts if field_counts > 0 else 0.0`. -/
def normalized_completeness (r : ReceiptExtractionResult) : ℚ :=
  if 0 < field_counts r then completeness_score r / (field_counts r : ℚ) else 0

/-- Embeds `r.confidence_score if r.confidence_score is not None else 0.5`. -/
def confidenceOf (r : ReceiptExtractionResult) : ℚ :=
  r.confidence_score.getD (1/2)

/-- Embeds `final_score = normalized_completeness * 0.7 + confidence * 0.3`
followed by `final_score += source_priorities.get(source, 0) * 0.01`. -/
def finalScore (r : ReceiptExtractionResult) : ℚ :=
  normalized_completeness r * (7/10) + confidenceOf r * (3/10)
    + sourcePriorityOf r.source * (1/100)

/-- Descending-score comparison used by `scored_results.sort(key=score,
reverse=True)`. -/
def scoreGE (a b : ReceiptExtractionResult) : Prop := finalScore b ≤ finalScore a

instance : DecidableRel scoreGE := fun a b =>
  inferInstanceAs (Decidable (finalScore b ≤ finalScore a))

instance : IsTotal ReceiptExtractionResult scoreGE := ⟨fun _ _ => le_total _ _⟩

instance : IsTrans ReceiptExtractionResult scoreGE := ⟨fun _ _ _ h₁ h₂ => le_trans h₂ h₁⟩

/-- Strict descending-score relation, used to analyse tie-free sorts. -/
def scoreGT (a b : ReceiptExtractionResult) : Prop := finalScore b < finalScore a

instance : IsAntisymm ReceiptExtractionResult scoreGT :=
  ⟨fun _ _ h₁ h₂ => absurd (lt_trans h₁ h₂) (lt_irrefl _)⟩

/-- The valid results sorted by descending score; Python `list.sort` is stable,
as is insertion sort, so equal scores keep arrival order. -/
def sortedValid (l : List ReceiptExtractionResult) : List ReceiptExtractionResult :=
  List.insertionSort scoreGE (validResults l)

/-- State of the merge loop: the five scalar accumulators, the parallel
`field_sources` dict values, and the item-merging state
(`all_items`, `seen_item_descriptions`, `item_sources`). -/
structure MergeState where
  merchant_name : Option String
  transaction_date : Option String
  transaction_time : Option String
  total_amount : Option ℚ
  currency : Option String
  fs_merchant_name : Option String
  fs_transaction_date : Option String
  fs_transaction_time : Option String
  fs_total_amount : Option String
  fs_currency : Option String
  items : List Item
  seen : List String
  item_sources : List (Option String × String)
deriving DecidableEq

/-- The `field_sources` dict: the code assigns all five keys in this fixed
order (a key maps to `none` when no source supplied the field). -/
def fieldSourcesEntries (st : MergeState) : List (String × Option String) :=
  [("merchant_name", st.fs_merchant_name),
   ("transaction_date", st.fs_transaction_date),
   ("transaction_time", st.fs_transaction_time),
   ("total_amount", st.fs_total_amount),
   ("currency", st.fs_currency)]

/-- Python truthiness of `item.get("description")`. -/
def itemTruthyDesc (it : Item) : Bool :=
  match it.description with
  | some d => d ≠ ""
  | none => false

/-- Models Python `str.lower()`: character-wise lowercasing. -/
def strLower (s : String) : String := String.mk (s.data.map Char.toLower)

/-- Models Python `str.strip()`: drops whitespace from both ends. -/
def strStrip (s : String) : String :=
  String.mk
    (((s.data.dropWhile Char.isWhitespace).reverse.dropWhile Char.isWhitespace).reverse)

/-- Embeds `item["description"].lower().strip()`. -/
def itemKeyOf (it : Item) : String :=
  strStrip (strLower (it.description.getD ""))

/-- Embeds the per-item body of the item merging loops: a truthy description
whose normalized key is unseen appends the item, its key, and its
attribution. -/
def addItem (src : String) (st : MergeState) (it : Item) : MergeState :=
  if itemTruthyDesc it then
    if itemKeyOf it ∈ st.seen then st
    else { st with
            items := st.items ++ [it]
            seen := itemKeyOf it :: st.seen
            item_sources := st.item_sources ++ [(it.description, src)] }
  else st

/-- Processes all items of one result, in list order. -/
def addItemsOf (r : ReceiptExtractionResult) (st : MergeState) : MergeState :=
  r.items.foldl (addItem r.source) st

/-- One pass of the gap-filling loop over the five scalar fields.  The Python
code updates the five accumulators in sequence; each guard reads only the
accumulator it updates, so the sequential updates equal this simultaneous
form. -/
def scalarStep (st : MergeState) (r : ReceiptExtractionResult) : MergeState :=
  { st with
    merchant_name :=
      if !strPresent st.merchant_name && strPresent r.merchant_name then r.merchant_name
      else st.merchant_name
    fs_merchant_name :=
      if !strPresent st.merchant_name && strPresent r.merchant_name then some r.source
      else st.fs_merchant_name
    transaction_date :=
      if !strPresent st.transaction_date && strPresent r.transaction_date then r.transaction_date
      else st.transaction_date
    fs_transaction_date :=
      if !strPresent st.transaction_date && strPresent r.transaction_date then some r.source
      else st.fs_transaction_date
    transaction_time :=
      if !strPresent st.transaction_time && strPresent r.transaction_time then r.transaction_time
      else st.transaction_time
    fs_transaction_time :=
      if !strPresent st.transaction_time && strPresent r.transaction_time then some r.source
      else st.fs_transaction_time
    total_amount :=
      if st.total_amount.isNone && r.total_amount.isSome then r.total_amount
      else st.total_amount
    fs_total_amount :=
      if st.total_amount.isNone && r.total_amount.isSome then some r.source
      else st.fs_total_amount
    currency :=
      if !strPresent st.currency && strPresent r.currency then r.currency
      else st.currency
    fs_currency :=
      if !strPresent st.currency && strPresent r.currency then some r.source
      else st.fs_currency }

/-- The body of the loop `for scored in scored_results[1:]`: gap-fill the
scalar fields, then add unique items. -/
def mergeStep (st : MergeState) (r : ReceiptExtractionResult) : MergeState :=
  addItemsOf r (scalarStep st r)

/-- Seeds the merge state from the base (top-scored) result: its scalar fields
and their attributions (a field set to a falsy value gets attribution `none`),
then its items. -/
def initState (b : ReceiptExtractionResult) : MergeState :=
  addItemsOf b
    { merchant_name := b.merchant_name
      transaction_date := b.transaction_date
      transaction_time := b.transaction_time
      total_amount := b.total_amount
      currency := b.currency
      fs_merchant_name := if strPresent b.merchant_name then some b.source else none
      fs_transaction_date := if strPresent b.transaction_date then some b.source else none
      fs_transaction_time := if strPresent b.transaction_time then some b.source else none
      fs_total_amount := if b.total_amount.isSome then some b.source else none
      fs_currency := if strPresent b.currency then some b.source else none
      items := []
      seen := []
      item_sources := [] }

/-- The merged state of the whole walk, or `none` when no valid result
exists (the code yields "No valid results to aggregate"). -/
def aggregateCore (l : List ReceiptExtractionResult) : Option MergeState :=
  match sortedValid l with
  | [] => none
  | b :: rest => some (rest.foldl mergeStep (initState b))

/-- Embeds `x or "Unknown"` and similar output defaults on strings. -/
def orDefault (v : Option String) (d : String) : String :=
  match v with
  | some s => if s = "" then d else s
  | none => d

/-- Embeds `total_amount or 0.0` (Python truthiness: `None` and `0.0` both
yield the default `0.0`). -/
def numOrZero (v : Option ℚ) : ℚ :=
  match v with
  | some q => if q = 0 then 0 else q
  | none => 0

/-- Python dict assignment `d[k] = v`: update in place, else append. -/
def dictInsert (d : List (String × ℚ)) (k : String) (v : ℚ) : List (String × ℚ) :=
  if d.any (fun kv => kv.1 = k) then d.map (fun kv => if kv.1 = k then (k, v) else kv)
  else d ++ [(k, v)]

/-- The `source_scores` metadata dict, built over the sorted scored results. -/
def sourceScores (rs : List ReceiptExtractionResult) : List (String × ℚ) :=
  rs.foldl (fun d r => dictInsert d r.source (finalScore r)) []

/-- Embeds the `FinalReceiptData` output model together with the parts of its
`metadata` dict that are functions of the inputs (`processing_timestamp` is the
wall-clock reading `datetime.now().isoformat()`, modelled as a parameter). -/
structure FinalReceiptData where
  merchant_name : String
  transaction_date : String
  transaction_time : Option String
  total_amount : ℚ
  currency : String
  items : List Item
  processing_timestamp : String
  confidence_score : ℚ
  completeness_score : ℚ
  aggregation_score : ℚ
  best_source : String
  source_scores : List (String × ℚ)
  field_sources : List (String × Option String)
  item_sources : List (Option String × String)
  sources_used : List String
  blob_name : String
deriving DecidableEq

/-- Builds the final record from the merged state, applying the output
defaults. -/
def finalize (ts : String) (valid : List ReceiptExtractionResult)
    (b : ReceiptExtractionResult) (rest : List ReceiptExtractionResult)
    (st : MergeState) : FinalReceiptData :=
  { merchant_name := orDefault st.merchant_name "Unknown"
    transaction_date := orDefault st.transaction_date "Unknown"
    transaction_time := st.transaction_time
    total_amount := numOrZero st.total_amount
    currency := orDefault st.currency "USD"
    items := st.items
    processing_timestamp := ts
    confidence_score := confidenceOf b
    completeness_score := normalized_completeness b
    aggregation_score := finalScore b
    best_source := b.source
    source_scores := sourceScores (b :: rest)
    field_sources := fieldSourcesEntries st
    item_sources := st.item_sources
    sources_used := valid.map (fun r => r.source)
    blob_name := (match valid with | [] => "" | v :: _ => v.blob_name) }

/-- Aggregation over an already filtered valid-result list. -/
def aggregateValid (ts : String) (valid : List ReceiptExtractionResult) :
    Option FinalReceiptData :=
  match List.insertionSort scoreGE valid with
  | [] => none
  | b :: rest => some (finalize ts valid b rest (rest.foldl mergeStep (initState b)))

/-- Embeds one invocation of `aggregate_results` on the accumulated result list
`l`, producing `none` when there is no valid result ("No valid results to
aggregate") and the final merged record otherwise.  `ts` is the wall-clock
timestamp of the invocation. -/
def aggregate (ts : String) (l : List ReceiptExtractionResult) :
    Option FinalReceiptData :=
  aggregateValid ts (validResults l)

/-- The ten scalar-side components of a merge state, bundled. -/
def scalarPart (st : MergeState) :=
  (st.merchant_name, st.transaction_date, st.transaction_time, st.total_amount,
   st.currency, st.fs_merchant_name, st.fs_transaction_date, st.fs_transaction_time,
   st.fs_total_amount, st.fs_currency)

lemma scalarPart_eq_iff {s t : MergeState} (h : scalarPart s = scalarPart t) :
    s.merchant_name = t.merchant_name ∧ s.transaction_date = t.transaction_date ∧
    s.transaction_time = t.transaction_time ∧ s.total_amount = t.total_amount ∧
    s.currency = t.currency ∧ s.fs_merchant_name = t.fs_merchant_name ∧
    s.fs_transaction_date = t.fs_transaction_date ∧
    s.fs_transaction_time = t.fs_transaction_time ∧
    s.fs_total_amount = t.fs_total_amount ∧ s.fs_currency = t.fs_currency := by
  simpa only [scalarPart, Prod.mk.injEq] using h

lemma addItem_scalarPart (src : String) (st : MergeState) (it : Item) :
    scalarPart (addItem src st it) = scalarPart st := by
  unfold addItem; split_ifs <;> rfl

lemma foldl_addItem_scalarPart (src : String) (items : List Item) (st : MergeState) :
    scalarPart (items.foldl (addItem src) st) = scalarPart st := by
  induction items generalizing st with
  | nil => rfl
  | cons it rest ih =>
    simpa only [List.foldl_cons] using
      (ih (addItem src st it)).trans (addItem_scalarPart src st it)

lemma addItemsOf_scalarPart (r : ReceiptExtractionResult) (st : MergeState) :
    scalarPart (addItemsOf r st) = scalarPart st :=
  foldl_addItem_scalarPart r.source r.items st

lemma addItemsOf_scalars (r : ReceiptExtractionResult) (st : MergeState) :
    (addItemsOf r st).merchant_name = st.merchant_name ∧
    (addItemsOf r st).transaction_date = st.transaction_date ∧
    (addItemsOf r st).transaction_time = st.transaction_time ∧
    (addItemsOf r st).total_amount = st.total_amount ∧
    (addItemsOf r st).currency = st.currency ∧
    (addItemsOf r st).fs_merchant_name = st.fs_merchant_name ∧
    (addItemsOf r st).fs_transaction_date = st.fs_transaction_date ∧
    (addItemsOf r st).fs_transaction_time = st.fs_transaction_time ∧
    (addItemsOf r st).fs_total_amount = st.fs_total_amount ∧
    (addItemsOf r st).fs_currency = st.fs_currency :=
  scalarPart_eq_iff (addItemsOf_scalarPart r st)

lemma mergeStep_m (st : MergeState) (r : ReceiptExtractionResult) :
    (mergeStep st r).merchant_name =
      if !strPresent st.merchant_name && strPresent r.merchant_name then r.merchant_name
      else st.merchant_name :=
  (addItemsOf_scalars r (scalarStep st r)).1

lemma mergeStep_d (st : MergeState) (r : ReceiptExtractionResult) :
    (mergeStep st r).transaction_date =
      if !strPresent st.transaction_date && strPresent r.transaction_date then
        r.transaction_date
      else st.transaction_date :=
  (addItemsOf_scalars r (scalarStep st r)).2.1

lemma mergeStep_t (st : MergeState) (r : ReceiptExtractionResult) :
    (mergeStep st r).transaction_time =
      if !strPresent st.transaction_time && strPresent r.transaction_time then
        r.transaction_time
      else st.transaction_time :=
  (addItemsOf_scalars r (scalarStep st r)).2.2.1

lemma mergeStep_a (st : MergeState) (r : ReceiptExtractionResult) :
    (mergeStep st r).total_amount =
      if st.total_amount.isNone && r.total_amount.isSome then r.total_amount
      else st.total_amount :=
  (addItemsOf_scalars r (scalarStep st r)).2.2.2.1

lemma mergeStep_c (st : MergeState) (r : ReceiptExtractionResult) :
    (mergeStep st r).currency =
      if !strPresent st.currency && strPresent r.currency then r.currency
      else st.currency :=
  (addItemsOf_scalars r (scalarStep st r)).2.2.2.2.1

lemma mergeStep_fm (st : MergeState) (r : ReceiptExtractionResult) :
    (mergeStep st r).fs_merchant_name =
      if !strPresent st.merchant_name && strPresent r.merchant_name then some r.source
      else st.fs_merchant_name :=
  (addItemsOf_scalars r (scalarStep st r)).2.2.2.2.2.1

lemma mergeStep_fd (st : MergeState) (r : ReceiptExtractionResult) :
    (mergeStep st r).fs_transaction_date =
      if !strPresent st.transaction_date && strPresent r.transaction_date then some r.source
      else st.fs_transaction_date :=
  (addItemsOf_scalars r (scalarStep st r)).2.2.2.2.2.2.1

lemma mergeStep_ft (st : MergeState) (r : ReceiptExtractionResult) :
    (mergeStep st r).fs_transaction_time =
      if !strPresent st.transaction_time && strPresent r.transaction_time then some r.source
      else st.fs_transaction_time :=
  (addItemsOf_scalars r (scalarStep st r)).2.2.2.2.2.2.2.1

lemma mergeStep_fa (st : MergeState) (r : ReceiptExtractionResult) :
    (mergeStep st r).fs_total_amount =
      if st.total_amount.isNone && r.total_amount.isSome then some r.source
      else st.fs_total_amount :=
  (addItemsOf_scalars r (scalarStep st r)).2.2.2.2.2.2.2.2.1

lemma mergeStep_fc (st : MergeState) (r : ReceiptExtractionResult) :
    (mergeStep st r).fs_currency =
      if !strPresent st.currency && strPresent r.currency then some r.source
      else st.fs_currency :=
  (addItemsOf_scalars r (scalarStep st r)).2.2.2.2.2.2.2.2.2

lemma foldl_freeze_m (rs : List ReceiptExtractionResult) (st : MergeState)
    (h : strPresent st.merchant_name = true) :
    (rs.foldl mergeStep st).merchant_name = st.merchant_name ∧
    (rs.foldl mergeStep st).fs_merchant_name = st.fs_merchant_name := by
  induction rs generalizing st with
  | nil => exact ⟨rfl, rfl⟩
  | cons r rest ih =>
    have hc : (!strPresent st.merchant_name && strPresent r.merchant_name) = false := by
      simp [h]
    have hv : (mergeStep st r).merchant_name = st.merchant_name := by
      rw [mergeStep_m, hc]; rfl
    have hf : (mergeStep st r).fs_merchant_name = st.fs_merchant_name := by
      rw [mergeStep_fm, hc]; rfl
    have hp : strPresent (mergeStep st r).merchant_name = true := by rw [hv]; exact h
    obtain ⟨ihv, ihf⟩ := ih (mergeStep st r) hp
    exact ⟨ihv.trans hv, ihf.trans hf⟩

lemma foldl_freeze_d (rs : List ReceiptExtractionResult) (st : MergeState)
    (h : strPresent st.transaction_date = true) :
    (rs.foldl mergeStep st).transaction_date = st.transaction_date ∧
    (rs.foldl mergeStep st).fs_transaction_date = st.fs_transaction_date := by
  induction rs generalizing st with
  | nil => exact ⟨rfl, rfl⟩
  | cons r rest ih =>
    have hc : (!strPresent st.transaction_date && strPresent r.transaction_date) = false := by
      simp [h]
    have hv : (mergeStep st r).transaction_date = st.transaction_date := by
      rw [mergeStep_d, hc]; rfl
    have hf : (mergeStep st r).fs_transaction_date = st.fs_transaction_date := by
      rw [mergeStep_fd, hc]; rfl
    have hp : strPresent (mergeStep st r).transaction_date = true := by rw [hv]; exact h
    obtain ⟨ihv, ihf⟩ := ih (mergeStep st r) hp
    exact ⟨ihv.trans hv, ihf.trans hf⟩

lemma foldl_freeze_t (rs : List ReceiptExtractionResult) (st : MergeState)
    (h : strPresent st.transaction_time = true) :
    (rs.foldl mergeStep st).transaction_time = st.transaction_time ∧
    (rs.foldl mergeStep st).fs_transaction_time = st.fs_transaction_time := by
  induction rs generalizing st with
  | nil => exact ⟨rfl, rfl⟩
  | cons r rest ih =>
    have hc : (!strPresent st.transaction_time && strPresent r.transaction_time) = false := by
      simp [h]
    have hv : (mergeStep st r).transaction_time = st.transaction_time := by
      rw [mergeStep_t, hc]; rfl
    have hf : (mergeStep st r).fs_transaction_time = st.fs_transaction_time := by
      rw [mergeStep_ft, hc]; rfl
    have hp : strPresent (mergeStep st r).transaction_time = true := by rw [hv]; exact h
    obtain ⟨ihv, ihf⟩ := ih (mergeStep st r) hp
    exact ⟨ihv.trans hv, ihf.trans hf⟩

lemma foldl_freeze_a (rs : List ReceiptExtractionResult) (st : MergeState)
    (h : st.total_amount.isSome = true) :
    (rs.foldl mergeStep st).total_amount = st.total_amount ∧
    (rs.foldl mergeStep st).fs_total_amount = st.fs_total_amount := by
  induction rs generalizing st with
  | nil => exact ⟨rfl, rfl⟩
  | cons r rest ih =>
    have hc : (st.total_amount.isNone && r.total_amount.isSome) = false := by
      simp [Option.isNone_eq_false_iff, Option.isSome_iff_exists] at h ⊢
      obtain ⟨x, hx⟩ := h
      simp [hx]
    have hv : (mergeStep st r).total_amount = st.total_amount := by
      rw [mergeStep_a, hc]; rfl
    have hf : (mergeStep st r).fs_total_amount = st.fs_total_amount := by
      rw [mergeStep_fa, hc]; rfl
    have hp : (mergeStep st r).total_amount.isSome = true := by rw [hv]; exact h
    obtain ⟨ihv, ihf⟩ := ih (mergeStep st r) hp
    exact ⟨ihv.trans hv, ihf.trans hf⟩

lemma foldl_freeze_c (rs : List ReceiptExtractionResult) (st : MergeState)
    (h : strPresent st.currency = true) :
    (rs.foldl mergeStep st).currency = st.currency ∧
    (rs.foldl mergeStep st).fs_currency = st.fs_currency := by
  induction rs generalizing st with
  | nil => exact ⟨rfl, rfl⟩
  | cons r rest ih =>
    have hc : (!strPresent st.currency && strPresent r.currency) = false := by
      simp [h]
    have hv : (mergeStep st r).currency = st.currency := by
      rw [mergeStep_c, hc]; rfl
    have hf : (mergeStep st r).fs_currency = st.fs_currency := by
      rw [mergeStep_fc, hc]; rfl
    have hp : strPresent (mergeStep st r).currency = true := by rw [hv]; exact h
    obtain ⟨ihv, ihf⟩ := ih (mergeStep st r) hp
    exact ⟨ihv.trans hv, ihf.trans hf⟩

lemma mergeStep_presence_m (st : MergeState) (r : ReceiptExtractionResult) :
    strPresent (mergeStep st r).merchant_name =
      (strPresent st.merchant_name || strPresent r.merchant_name) := by
  rw [mergeStep_m]
  cases hp : strPresent st.merchant_name <;> cases hq : strPresent r.merchant_name <;>
    simp [hp, hq]

lemma mergeStep_presence_d (st : MergeState) (r : ReceiptExtractionResult) :
    strPresent (mergeStep st r).transaction_date =
      (strPresent st.transaction_date || strPresent r.transaction_date) := by
  rw [mergeStep_d]
  cases hp : strPresent st.transaction_date <;> cases hq : strPresent r.transaction_date <;>
    simp [hp, hq]

lemma mergeStep_presence_t (st : MergeState) (r : ReceiptExtractionResult) :
    strPresent (mergeStep st r).transaction_time =
      (strPresent st.transaction_time || strPresent r.transaction_time) := by
  rw [mergeStep_t]
  cases hp : strPresent st.transaction_time <;> cases hq : strPresent r.transaction_time <;>
    simp [hp, hq]

lemma mergeStep_presence_a (st : MergeState) (r : ReceiptExtractionResult) :
    (mergeStep st r).total_amount.isSome =
      (st.total_amount.isSome || r.total_amount.isSome) := by
  rw [mergeStep_a]
  cases hp : st.total_amount <;> cases hq : r.total_amount <;> simp [hp, hq]

lemma mergeStep_presence_c (st : MergeState) (r : ReceiptExtractionResult) :
    strPresent (mergeStep st r).currency =
      (strPresent st.currency || strPresent r.currency) := by
  rw [mergeStep_c]
  cases hp : strPresent st.currency <;> cases hq : strPresent r.currency <;>
    simp [hp, hq]

lemma foldl_presence_m (rs : List ReceiptExtractionResult) (st : MergeState) :
    strPresent (rs.foldl mergeStep st).merchant_name =
      (strPresent st.merchant_name || rs.any (fun r => strPresent r.merchant_name)) := by
  induction rs generalizing st with
  | nil => simp
  | cons r rest ih =>
    simp only [List.foldl_cons, List.any_cons]
    rw [ih, mergeStep_presence_m, Bool.or_assoc]

lemma foldl_presence_d (rs : List ReceiptExtractionResult) (st : MergeState) :
    strPresent (rs.foldl mergeStep st).transaction_date =
      (strPresent st.transaction_date || rs.any (fun r => strPresent r.transaction_date)) := by
  induction rs generalizing st with
  | nil => simp
  | cons r rest ih =>
    simp only [List.foldl_cons, List.any_cons]
    rw [ih, mergeStep_presence_d, Bool.or_assoc]

lemma foldl_presence_t (rs : List ReceiptExtractionResult) (st : MergeState) :
    strPresent (rs.foldl mergeStep st).transaction_time =
      (strPresent st.transaction_time || rs.any (fun r => strPresent r.transaction_time)) := by
  induction rs generalizing st with
  | nil => simp
  | cons r rest ih =>
    simp only [List.foldl_cons, List.any_cons]
    rw [ih, mergeStep_presence_t, Bool.or_assoc]

lemma foldl_presence_a (rs : List ReceiptExtractionResult) (st : MergeState) :
    (rs.foldl mergeStep st).total_amount.isSome =
      (st.total_amount.isSome || rs.any (fun r => r.total_amount.isSome)) := by
  induction rs generalizing st with
  | nil => simp
  | cons r rest ih =>
    simp only [List.foldl_cons, List.any_cons]
    rw [ih, mergeStep_presence_a, Bool.or_assoc]

lemma foldl_presence_c (rs : List ReceiptExtractionResult) (st : MergeState) :
    strPresent (rs.foldl mergeStep st).currency =
      (strPresent st.currency || rs.any (fun r => strPresent r.currency)) := by
  induction rs generalizing st with
  | nil => simp
  | cons r rest ih =>
    simp only [List.foldl_cons, List.any_cons]
    rw [ih, mergeStep_presence_c, Bool.or_assoc]

lemma initState_scalars (b : ReceiptExtractionResult) :
    (initState b).merchant_name = b.merchant_name ∧
    (initState b).transaction_date = b.transaction_date ∧
    (initState b).transaction_time = b.transaction_time ∧
    (initState b).total_amount = b.total_amount ∧
    (initState b).currency = b.currency ∧
    (initState b).fs_merchant_name =
      (if strPresent b.merchant_name then some b.source else none) ∧
    (initState b).fs_transaction_date =
      (if strPresent b.transaction_date then some b.source else none) ∧
    (initState b).fs_transaction_time =
      (if strPresent b.transaction_time then some b.source else none) ∧
    (initState b).fs_total_amount =
      (if b.total_amount.isSome then some b.source else none) ∧
    (initState b).fs_currency =
      (if strPresent b.currency then some b.source else none) :=
  addItemsOf_scalars b _

lemma addItem_mono (src : String) (st : MergeState) (it : Item) :
    (∀ x ∈ st.items, x ∈ (addItem src st it).items) ∧
    (∀ p ∈ st.item_sources, p ∈ (addItem src st it).item_sources) ∧
    (∀ k ∈ st.seen, k ∈ (addItem src st it).seen) := by
  unfold addItem
  split_ifs with h1 h2
  · exact ⟨fun x hx => hx, fun p hp => hp, fun k hk => hk⟩
  · exact ⟨fun x hx => List.mem_append_left _ hx,
      fun p hp => List.mem_append_left _ hp,
      fun k hk => List.mem_cons_of_mem _ hk⟩
  · exact ⟨fun x hx => hx, fun p hp => hp, fun k hk => hk⟩

lemma foldl_addItem_mono (src : String) (items : List Item) (st : MergeState) :
    (∀ x ∈ st.items, x ∈ (items.foldl (addItem src) st).items) ∧
    (∀ p ∈ st.item_sources, p ∈ (items.foldl (addItem src) st).item_sources) ∧
    (∀ k ∈ st.seen, k ∈ (items.foldl (addItem src) st).seen) := by
  induction items generalizing st with
  | nil => exact ⟨fun x hx => hx, fun p hp => hp, fun k hk => hk⟩
  | cons it rest ih =>
    simp only [List.foldl_cons]
    obtain ⟨a1, a2, a3⟩ := addItem_mono src st it
    obtain ⟨b1, b2, b3⟩ := ih (addItem src st it)
    exact ⟨fun x hx => b1 x (a1 x hx), fun p hp => b2 p (a2 p hp),
      fun k hk => b3 k (a3 k hk)⟩

lemma mergeStep_mono (st : MergeState) (r : ReceiptExtractionResult) :
    (∀ x ∈ st.items, x ∈ (mergeStep st r).items) ∧
    (∀ p ∈ st.item_sources, p ∈ (mergeStep st r).item_sources) ∧
    (∀ k ∈ st.seen, k ∈ (mergeStep st r).seen) :=
  foldl_addItem_mono r.source r.items (scalarStep st r)

lemma foldl_mergeStep_mono (rs : List ReceiptExtractionResult) (st : MergeState) :
    (∀ x ∈ st.items, x ∈ (rs.foldl mergeStep st).items) ∧
    (∀ p ∈ st.item_sources, p ∈ (rs.foldl mergeStep st).item_sources) ∧
    (∀ k ∈ st.seen, k ∈ (rs.foldl mergeStep st).seen) := by
  induction rs generalizing st with
  | nil => exact ⟨fun x hx => hx, fun p hp => hp, fun k hk => hk⟩
  | cons r rest ih =>
    simp only [List.foldl_cons]
    obtain ⟨a1, a2, a3⟩ := mergeStep_mono st r
    obtain ⟨b1, b2, b3⟩ := ih (mergeStep st r)
    exact ⟨fun x hx => b1 x (a1 x hx), fun p hp => b2 p (a2 p hp),
      fun k hk => b3 k (a3 k hk)⟩

lemma addItem_seen_iff (src : String) (st : MergeState) (it : Item) (k : String) :
    k ∈ (addItem src st it).seen ↔
      k ∈ st.seen ∨ (itemTruthyDesc it = true ∧ itemKeyOf it = k) := by
  unfold addItem
  split_ifs with h1 h2
  · constructor
    · exact Or.inl
    · rintro (hk | ⟨-, hk⟩)
      · exact hk
      · exact hk ▸ h2
  · show k ∈ itemKeyOf it :: st.seen ↔ _
    rw [List.mem_cons]
    constructor
    · rintro (rfl | hk)
      · exact Or.inr ⟨h1, rfl⟩
      · exact Or.inl hk
    · rintro (hk | ⟨-, hk⟩)
      · exact Or.inr hk
      · exact Or.inl hk.symm
  · constructor
    · exact Or.inl
    · rintro (hk | ⟨ht, -⟩)
      · exact hk
      · exact absurd ht h1

lemma foldl_addItem_seen_iff (src : String) (items : List Item) (st : MergeState)
    (k : String) :
    k ∈ (items.foldl (addItem src) st).seen ↔
      k ∈ st.seen ∨ ∃ it ∈ items, itemTruthyDesc it = true ∧ itemKeyOf it = k := by
  induction items generalizing st with
  | nil => simp
  | cons it rest ih =>
    simp only [List.foldl_cons]
    rw [ih, addItem_seen_iff]
    constructor
    · rintro ((hk | h) | ⟨x, hx, h⟩)
      · exact Or.inl hk
      · exact Or.inr ⟨it, List.mem_cons_self _ _, h⟩
      · exact Or.inr ⟨x, List.mem_cons_of_mem _ hx, h⟩
    · rintro (hk | ⟨x, hx, h⟩)
      · exact Or.inl (Or.inl hk)
      · rcases List.mem_cons.mp hx with rfl | hx
        · exact Or.inl (Or.inr h)
        · exact Or.inr ⟨x, hx, h⟩

lemma mergeStep_seen_iff (st : MergeState) (r : ReceiptExtractionResult) (k : String) :
    k ∈ (mergeStep st r).seen ↔
      k ∈ st.seen ∨ ∃ it ∈ r.items, itemTruthyDesc it = true ∧ itemKeyOf it = k :=
  foldl_addItem_seen_iff r.source r.items (scalarStep st r) k

lemma foldl_mergeStep_seen_iff (rs : List ReceiptExtractionResult) (st : MergeState)
    (k : String) :
    k ∈ (rs.foldl mergeStep st).seen ↔
      k ∈ st.seen ∨
        ∃ r ∈ rs, ∃ it ∈ r.items, itemTruthyDesc it = true ∧ itemKeyOf it = k := by
  induction rs generalizing st with
  | nil => simp
  | cons r rest ih =>
    simp only [List.foldl_cons]
    rw [ih, mergeStep_seen_iff]
    constructor
    · rintro ((hk | h) | ⟨x, hx, h⟩)
      · exact Or.inl hk
      · exact Or.inr ⟨r, List.mem_cons_self _ _, h⟩
      · exact Or.inr ⟨x, List.mem_cons_of_mem _ hx, h⟩
    · rintro (hk | ⟨x, hx, h⟩)
      · exact Or.inl (Or.inl hk)
      · rcases List.mem_cons.mp hx with rfl | hx
        · exact Or.inl (Or.inr h)
        · exact Or.inr ⟨x, hx, h⟩

/-- Invariant of the item-merging state: every merged item has a truthy
description, the seen set is exactly the key set of the merged items, and no
two merged items share a normalized key. -/
def ItemsOk (st : MergeState) : Prop :=
  (∀ it ∈ st.items, itemTruthyDesc it = true) ∧
  (∀ k, k ∈ st.seen ↔ ∃ it ∈ st.items, itemKeyOf it = k) ∧
  List.Pairwise (fun a b => itemKeyOf a ≠ itemKeyOf b) st.items

lemma itemsOk_addItem (src : String) (st : MergeState) (it : Item)
    (h : ItemsOk st) : ItemsOk (addItem src st it) := by
  obtain ⟨hT, hS, hP⟩ := h
  unfold addItem
  split_ifs with h1 h2
  · exact ⟨hT, hS, hP⟩
  · refine ⟨?_, ?_, ?_⟩
    · intro x hx
      rcases List.mem_append.mp hx with hx | hx
      · exact hT x hx
      · obtain rfl := List.mem_singleton.mp hx
        exact h1
    · intro k
      show k ∈ itemKeyOf it :: st.seen ↔ _
      rw [List.mem_cons]
      constructor
      · rintro (rfl | hk)
        · exact ⟨it, List.mem_append_right _ (List.mem_singleton_self _), rfl⟩
        · obtain ⟨x, hx, hkx⟩ := (hS k).mp hk
          exact ⟨x, List.mem_append_left _ hx, hkx⟩
      · rintro ⟨x, hx, hkx⟩
        rcases List.mem_append.mp hx with hx | hx
        · exact Or.inr ((hS k).mpr ⟨x, hx, hkx⟩)
        · obtain rfl := List.mem_singleton.mp hx
          exact Or.inl hkx.symm
    · show List.Pairwise _ (st.items ++ [it])
      rw [List.pairwise_append]
      refine ⟨hP, List.pairwise_singleton _ _, ?_⟩
      intro a ha b hb
      obtain rfl := List.mem_singleton.mp hb
      intro hEq
      exact h2 (hEq ▸ (hS (itemKeyOf a)).mpr ⟨a, ha, rfl⟩)
  · exact ⟨hT, hS, hP⟩

lemma itemsOk_foldl_addItem (src : String) (items : List Item) (st : MergeState)
    (h : ItemsOk st) : ItemsOk (items.foldl (addItem src) st) := by
  induction items generalizing st with
  | nil => exact h
  | cons it rest ih =>
    simp only [List.foldl_cons]
    exact ih (addItem src st it) (itemsOk_addItem src st it h)

lemma itemsOk_mergeStep (st : MergeState) (r : ReceiptExtractionResult)
    (h : ItemsOk st) : ItemsOk (mergeStep st r) :=
  itemsOk_foldl_addItem r.source r.items (scalarStep st r) h

lemma itemsOk_foldl_mergeStep (rs : List ReceiptExtractionResult) (st : MergeState)
    (h : ItemsOk st) : ItemsOk (rs.foldl mergeStep st) := by
  induction rs generalizing st with
  | nil => exact h
  | cons r rest ih =>
    simp only [List.foldl_cons]
    exact ih (mergeStep st r) (itemsOk_mergeStep st r h)

lemma itemsOk_init (b : ReceiptExtractionResult) : ItemsOk (initState b) := by
  apply itemsOk_foldl_addItem
  exact ⟨by simp, by simp, by simp⟩

lemma firstKey_foldl_addItem (src : String) (items : List Item) (st : MergeState)
    (k : String) (hns : k ∉ st.seen)
    (hex : ∃ it ∈ items, itemTruthyDesc it = true ∧ itemKeyOf it = k) :
    ∃ it ∈ items, itemTruthyDesc it = true ∧ itemKeyOf it = k ∧
      it ∈ (items.foldl (addItem src) st).items ∧
      (it.description, src) ∈ (items.foldl (addItem src) st).item_sources := by
  induction items generalizing st with
  | nil => simp at hex
  | cons it₁ rest ih =>
    simp only [List.foldl_cons]
    by_cases h1 : itemTruthyDesc it₁ = true ∧ itemKeyOf it₁ = k
    · have hadd : addItem src st it₁ =
          { st with
              items := st.items ++ [it₁]
              seen := itemKeyOf it₁ :: st.seen
              item_sources := st.item_sources ++ [(it₁.description, src)] } := by
        unfold addItem
        rw [if_pos h1.1, if_neg (by rw [h1.2]; exact hns)]
      obtain ⟨m1, m2, -⟩ := foldl_addItem_mono src rest (addItem src st it₁)
      refine ⟨it₁, List.mem_cons_self _ _, h1.1, h1.2, ?_, ?_⟩
      · exact m1 it₁ (by rw [hadd]; exact List.mem_append_right _ (List.mem_singleton_self _))
      · exact m2 _ (by rw [hadd]; exact List.mem_append_right _ (List.mem_singleton_self _))
    · have hns2 : k ∉ (addItem src st it₁).seen := by
        rw [addItem_seen_iff]
        rintro (hk | hk)
        · exact hns hk
        · exact h1 hk
      obtain ⟨it₂, hm, ht, hk2⟩ := hex
      have hm2 : it₂ ∈ rest := by
        rcases List.mem_cons.mp hm with rfl | hm
        · exact absurd ⟨ht, hk2⟩ h1
        · exact hm
      obtain ⟨it, hmem, p₁, p₂, p₃, p₄⟩ := ih (addItem src st it₁) hns2 ⟨it₂, hm2, ht, hk2⟩
      exact ⟨it, List.mem_cons_of_mem _ hmem, p₁, p₂, p₃, p₄⟩

/-- First-contributor attribution: when some result in the walk contributes a
new key `k`, the merged item with key `k` is the first matching item of the
first result (in walk order) that has one, and its attribution names that
result. -/
lemma key_attribution (rs : List ReceiptExtractionResult) (st : MergeState) (k : String)
    (hns : k ∉ st.seen)
    (hex : ∃ r ∈ rs, ∃ it ∈ r.items, itemTruthyDesc it = true ∧ itemKeyOf it = k) :
    ∃ u r v, rs = u ++ r :: v ∧
      (∀ r₀ ∈ u, ¬∃ it ∈ r₀.items, itemTruthyDesc it = true ∧ itemKeyOf it = k) ∧
      ∃ it ∈ r.items, itemTruthyDesc it = true ∧ itemKeyOf it = k ∧
        it ∈ (rs.foldl mergeStep st).items ∧
        (it.description, r.source) ∈ (rs.foldl mergeStep st).item_sources := by
  induction rs generalizing st with
  | nil => simp at hex
  | cons r₁ rest ih =>
    simp only [List.foldl_cons]
    by_cases h1 : ∃ it ∈ r₁.items, itemTruthyDesc it = true ∧ itemKeyOf it = k
    · refine ⟨[], r₁, rest, rfl, by simp, ?_⟩
      obtain ⟨it, hm, ht, hk, hin, hsrc⟩ :=
        firstKey_foldl_addItem r₁.source r₁.items (scalarStep st r₁) k hns h1
      obtain ⟨m1, m2, -⟩ := foldl_mergeStep_mono rest (mergeStep st r₁)
      exact ⟨it, hm, ht, hk, m1 it hin, m2 _ hsrc⟩
    · have hns2 : k ∉ (mergeStep st r₁).seen := by
        rw [mergeStep_seen_iff]
        rintro (hk | hk)
        · exact hns hk
        · exact h1 hk
      obtain ⟨r₂, hm, hit⟩ := hex
      have hm2 : r₂ ∈ rest := by
        rcases List.mem_cons.mp hm with rfl | hm
        · exact absurd hit h1
        · exact hm
      obtain ⟨u, r, v, hsplit, hu, hrest⟩ := ih (mergeStep st r₁) hns2 ⟨r₂, hm2, hit⟩
      refine ⟨r₁ :: u, r, v, by rw [hsplit]; rfl, ?_, hrest⟩
      intro r₀ hr₀
      rcases List.mem_cons.mp hr₀ with rfl | hr₀
      · exact h1
      · exact hu r₀ hr₀

/-- Attribution invariant for `merchant_name`: the `field_sources` entry is
`none` exactly when the accumulated value is falsy, and when it names a
source, that source belongs to a processed result that supplied the
accumulated value. -/
def MOkM (rs : List ReceiptExtractionResult) (st : MergeState) : Prop :=
  (st.fs_merchant_name = none ↔ strPresent st.merchant_name = false) ∧
  (∀ s, st.fs_merchant_name = some s →
    ∃ r ∈ rs, r.source = s ∧ strPresent r.merchant_name = true ∧
      st.merchant_name = r.merchant_name)

def MOkD (rs : List ReceiptExtractionResult) (st : MergeState) : Prop :=
  (st.fs_transaction_date = none ↔ strPresent st.transaction_date = false) ∧
  (∀ s, st.fs_transaction_date = some s →
    ∃ r ∈ rs, r.source = s ∧ strPresent r.transaction_date = true ∧
      st.transaction_date = r.transaction_date)

def MOkT (rs : List ReceiptExtractionResult) (st : MergeState) : Prop :=
  (st.fs_transaction_time = none ↔ strPresent st.transaction_time = false) ∧
  (∀ s, st.fs_transaction_time = some s →
    ∃ r ∈ rs, r.source = s ∧ strPresent r.transaction_time = true ∧
      st.transaction_time = r.transaction_time)

def MOkA (rs : List ReceiptExtractionResult) (st : MergeState) : Prop :=
  (st.fs_total_amount = none ↔ st.total_amount.isSome = false) ∧
  (∀ s, st.fs_total_amount = some s →
    ∃ r ∈ rs, r.source = s ∧ r.total_amount.isSome = true ∧
      st.total_amount = r.total_amount)

def MOkC (rs : List ReceiptExtractionResult) (st : MergeState) : Prop :=
  (st.fs_currency = none ↔ strPresent st.currency = false) ∧
  (∀ s, st.fs_currency = some s →
    ∃ r ∈ rs, r.source = s ∧ strPresent r.currency = true ∧
      st.currency = r.currency)

lemma mOkM_init (b : ReceiptExtractionResult) : MOkM [b] (initState b) := by
  obtain ⟨h1, -, -, -, -, h6, -, -, -, -⟩ := initState_scalars b
  constructor
  · rw [h1, h6]
    cases hp : strPresent b.merchant_name <;> simp [hp]
  · intro s hs
    rw [h6] at hs
    cases hp : strPresent b.merchant_name
    · rw [hp] at hs; simp at hs
    · rw [hp] at hs; simp at hs
      exact ⟨b, List.mem_singleton_self _, hs, hp, h1⟩

lemma mOkD_init (b : ReceiptExtractionResult) : MOkD [b] (initState b) := by
  obtain ⟨-, h2, -, -, -, -, h7, -, -, -⟩ := initState_scalars b
  constructor
  · rw [h2, h7]
    cases hp : strPresent b.transaction_date <;> simp [hp]
  · intro s hs
    rw [h7] at hs
    cases hp : strPresent b.transaction_date
    · rw [hp] at hs; simp at hs
    · rw [hp] at hs; simp at hs
      exact ⟨b, List.mem_singleton_self _, hs, hp, h2⟩

lemma mOkT_init (b : ReceiptExtractionResult) : MOkT [b] (initState b) := by
  obtain ⟨-, -, h3, -, -, -, -, h8, -, -⟩ := initState_scalars b
  constructor
  · rw [h3, h8]
    cases hp : strPresent b.transaction_time <;> simp [hp]
  · intro s hs
    rw [h8] at hs
    cases hp : strPresent b.transaction_time
    · rw [hp] at hs; simp at hs
    · rw [hp] at hs; simp at hs
      exact ⟨b, List.mem_singleton_self _, hs, hp, h3⟩

lemma mOkA_init (b : ReceiptExtractionResult) : MOkA [b] (initState b) := by
  obtain ⟨-, -, -, h4, -, -, -, -, h9, -⟩ := initState_scalars b
  constructor
  · rw [h4, h9]
    cases hp : b.total_amount.isSome <;> simp [hp]
  · intro s hs
    rw [h9] at hs
    cases hp : b.total_amount.isSome
    · rw [hp] at hs; simp at hs
    · rw [hp] at hs; simp at hs
      exact ⟨b, List.mem_singleton_self _, hs, hp, h4⟩

lemma mOkC_init (b : ReceiptExtractionResult) : MOkC [b] (initState b) := by
  obtain ⟨-, -, -, -, h5, -, -, -, -, h10⟩ := initState_scalars b
  constructor
  · rw [h5, h10]
    cases hp : strPresent b.currency <;> simp [hp]
  · intro s hs
    rw [h10] at hs
    cases hp : strPresent b.currency
    · rw [hp] at hs; simp at hs
    · rw [hp] at hs; simp at hs
      exact ⟨b, List.mem_singleton_self _, hs, hp, h5⟩

lemma mOkM_step (rs : List ReceiptExtractionResult) (st : MergeState)
    (r : ReceiptExtractionResult) (h : MOkM rs st) : MOkM (rs ++ [r]) (mergeStep st r) := by
  obtain ⟨hIff, hSrc⟩ := h
  have hv := mergeStep_m st r
  have hf := mergeStep_fm st r
  by_cases hc : (!strPresent st.merchant_name && strPresent r.merchant_name) = true
  · rw [if_pos hc] at hv hf
    have hrp : strPresent r.merchant_name = true := by have hx := hc; simp only [Bool.and_eq_true] at hx; exact hx.2
    constructor
    · rw [hv, hf, hrp]; simp
    · intro s hs
      rw [hf] at hs
      obtain rfl : r.source = s := Option.some.inj hs
      exact ⟨r, List.mem_append_right _ (List.mem_singleton_self _), rfl, hrp, hv⟩
  · rw [if_neg hc] at hv hf
    constructor
    · rw [hv, hf]; exact hIff
    · intro s hs
      rw [hf] at hs
      obtain ⟨r₀, hm, p₁, p₂, p₃⟩ := hSrc s hs
      exact ⟨r₀, List.mem_append_left _ hm, p₁, p₂, hv.trans p₃⟩

lemma mOkD_step (rs : List ReceiptExtractionResult) (st : MergeState)
    (r : ReceiptExtractionResult) (h : MOkD rs st) : MOkD (rs ++ [r]) (mergeStep st r) := by
  obtain ⟨hIff, hSrc⟩ := h
  have hv := mergeStep_d st r
  have hf := mergeStep_fd st r
  by_cases hc : (!strPresent st.transaction_date && strPresent r.transaction_date) = true
  · rw [if_pos hc] at hv hf
    have hrp : strPresent r.transaction_date = true := by have hx := hc; simp only [Bool.and_eq_true] at hx; exact hx.2
    constructor
    · rw [hv, hf, hrp]; simp
    · intro s hs
      rw [hf] at hs
      obtain rfl : r.source = s := Option.some.inj hs
      exact ⟨r, List.mem_append_right _ (List.mem_singleton_self _), rfl, hrp, hv⟩
  · rw [if_neg hc] at hv hf
    constructor
    · rw [hv, hf]; exact hIff
    · intro s hs
      rw [hf] at hs
      obtain ⟨r₀, hm, p₁, p₂, p₃⟩ := hSrc s hs
      exact ⟨r₀, List.mem_append_left _ hm, p₁, p₂, hv.trans p₃⟩

lemma mOkT_step (rs : List ReceiptExtractionResult) (st : MergeState)
    (r : ReceiptExtractionResult) (h : MOkT rs st) : MOkT (rs ++ [r]) (mergeStep st r) := by
  obtain ⟨hIff, hSrc⟩ := h
  have hv := mergeStep_t st r
  have hf := mergeStep_ft st r
  by_cases hc : (!strPresent st.transaction_time && strPresent r.transaction_time) = true
  · rw [if_pos hc] at hv hf
    have hrp : strPresent r.transaction_time = true := by have hx := hc; simp only [Bool.and_eq_true] at hx; exact hx.2
    constructor
    · rw [hv, hf, hrp]; simp
    · intro s hs
      rw [hf] at hs
      obtain rfl : r.source = s := Option.some.inj hs
      exact ⟨r, List.mem_append_right _ (List.mem_singleton_self _), rfl, hrp, hv⟩
  · rw [if_neg hc] at hv hf
    constructor
    · rw [hv, hf]; exact hIff
    · intro s hs
      rw [hf] at hs
      obtain ⟨r₀, hm, p₁, p₂, p₃⟩ := hSrc s hs
      exact ⟨r₀, List.mem_append_left _ hm, p₁, p₂, hv.trans p₃⟩

lemma mOkA_step (rs : List ReceiptExtractionResult) (st : MergeState)
    (r : ReceiptExtractionResult) (h : MOkA rs st) : MOkA (rs ++ [r]) (mergeStep st r) := by
  obtain ⟨hIff, hSrc⟩ := h
  have hv := mergeStep_a st r
  have hf := mergeStep_fa st r
  by_cases hc : (st.total_amount.isNone && r.total_amount.isSome) = true
  · rw [if_pos hc] at hv hf
    have hrp : r.total_amount.isSome = true := by have hx := hc; simp only [Bool.and_eq_true] at hx; exact hx.2
    constructor
    · rw [hv, hf, hrp]; simp
    · intro s hs
      rw [hf] at hs
      obtain rfl : r.source = s := Option.some.inj hs
      exact ⟨r, List.mem_append_right _ (List.mem_singleton_self _), rfl, hrp, hv⟩
  · rw [if_neg hc] at hv hf
    constructor
    · rw [hv, hf]; exact hIff
    · intro s hs
      rw [hf] at hs
      obtain ⟨r₀, hm, p₁, p₂, p₃⟩ := hSrc s hs
      exact ⟨r₀, List.mem_append_left _ hm, p₁, p₂, hv.trans p₃⟩

lemma mOkC_step (rs : List ReceiptExtractionResult) (st : MergeState)
    (r : ReceiptExtractionResult) (h : MOkC rs st) : MOkC (rs ++ [r]) (mergeStep st r) := by
  obtain ⟨hIff, hSrc⟩ := h
  have hv := mergeStep_c st r
  have hf := mergeStep_fc st r
  by_cases hc : (!strPresent st.currency && strPresent r.currency) = true
  · rw [if_pos hc] at hv hf
    have hrp : strPresent r.currency = true := by have hx := hc; simp only [Bool.and_eq_true] at hx; exact hx.2
    constructor
    · rw [hv, hf, hrp]; simp
    · intro s hs
      rw [hf] at hs
      obtain rfl : r.source = s := Option.some.inj hs
      exact ⟨r, List.mem_append_right _ (List.mem_singleton_self _), rfl, hrp, hv⟩
  · rw [if_neg hc] at hv hf
    constructor
    · rw [hv, hf]; exact hIff
    · intro s hs
      rw [hf] at hs
      obtain ⟨r₀, hm, p₁, p₂, p₃⟩ := hSrc s hs
      exact ⟨r₀, List.mem_append_left _ hm, p₁, p₂, hv.trans p₃⟩

lemma mOkM_foldl (rs l0 : List ReceiptExtractionResult) (st : MergeState)
    (h : MOkM l0 st) : MOkM (l0 ++ rs) (rs.foldl mergeStep st) := by
  induction rs generalizing l0 st with
  | nil => simpa using h
  | cons r rest ih =>
    simp only [List.foldl_cons]
    have h2 := ih (l0 ++ [r]) (mergeStep st r) (mOkM_step l0 st r h)
    simpa [List.append_assoc] using h2

lemma mOkD_foldl (rs l0 : List ReceiptExtractionResult) (st : MergeState)
    (h : MOkD l0 st) : MOkD (l0 ++ rs) (rs.foldl mergeStep st) := by
  induction rs generalizing l0 st with
  | nil => simpa using h
  | cons r rest ih =>
    simp only [List.foldl_cons]
    have h2 := ih (l0 ++ [r]) (mergeStep st r) (mOkD_step l0 st r h)
    simpa [List.append_assoc] using h2

lemma mOkT_foldl (rs l0 : List ReceiptExtractionResult) (st : MergeState)
    (h : MOkT l0 st) : MOkT (l0 ++ rs) (rs.foldl mergeStep st) := by
  induction rs generalizing l0 st with
  | nil => simpa using h
  | cons r rest ih =>
    simp only [List.foldl_cons]
    have h2 := ih (l0 ++ [r]) (mergeStep st r) (mOkT_step l0 st r h)
    simpa [List.append_assoc] using h2

lemma mOkA_foldl (rs l0 : List ReceiptExtractionResult) (st : MergeState)
    (h : MOkA l0 st) : MOkA (l0 ++ rs) (rs.foldl mergeStep st) := by
  induction rs generalizing l0 st with
  | nil => simpa using h
  | cons r rest ih =>
    simp only [List.foldl_cons]
    have h2 := ih (l0 ++ [r]) (mergeStep st r) (mOkA_step l0 st r h)
    simpa [List.append_assoc] using h2

lemma mOkC_foldl (rs l0 : List ReceiptExtractionResult) (st : MergeState)
    (h : MOkC l0 st) : MOkC (l0 ++ rs) (rs.foldl mergeStep st) := by
  induction rs generalizing l0 st with
  | nil => simpa using h
  | cons r rest ih =>
    simp only [List.foldl_cons]
    have h2 := ih (l0 ++ [r]) (mergeStep st r) (mOkC_step l0 st r h)
    simpa [List.append_assoc] using h2

lemma sortedValid_perm (l : List ReceiptExtractionResult) :
    (sortedValid l).Perm (validResults l) :=
  List.perm_insertionSort scoreGE (validResults l)

lemma sortedValid_sorted (l : List ReceiptExtractionResult) :
    (sortedValid l).Sorted scoreGE :=
  List.sorted_insertionSort scoreGE (validResults l)

lemma sortedValid_nil_iff (l : List ReceiptExtractionResult) :
    sortedValid l = [] ↔ validResults l = [] := by
  constructor
  · intro h
    have hp := sortedValid_perm l
    rw [h] at hp
    have := hp.length_eq
    simpa using (List.length_eq_zero.mp (by simpa using this.symm))
  · intro h
    simp [sortedValid, h]

lemma aggregateCore_cons {l : List ReceiptExtractionResult}
    {b : ReceiptExtractionResult} {rest : List ReceiptExtractionResult}
    (hs : sortedValid l = b :: rest) :
    aggregateCore l = some (rest.foldl mergeStep (initState b)) := by
  unfold aggregateCore
  rw [hs]

lemma aggregate_cons {ts : String} {l : List ReceiptExtractionResult}
    {b : ReceiptExtractionResult} {rest : List ReceiptExtractionResult}
    (hs : sortedValid l = b :: rest) :
    aggregate ts l =
      some (finalize ts (validResults l) b rest (rest.foldl mergeStep (initState b))) := by
  unfold aggregate aggregateValid
  rw [show List.insertionSort scoreGE (validResults l) = b :: rest from hs]

lemma aggregateCore_none_iff (l : List ReceiptExtractionResult) :
    aggregateCore l = none ↔ validResults l = [] := by
  cases hs : sortedValid l with
  | nil =>
    have h1 : aggregateCore l = none := by unfold aggregateCore; rw [hs]
    exact iff_of_true h1 ((sortedValid_nil_iff l).mp hs)
  | cons b rest =>
    refine iff_of_false (by rw [aggregateCore_cons hs]; simp) (fun h => ?_)
    rw [(sortedValid_nil_iff l).mpr h] at hs
    exact List.noConfusion hs

lemma aggregate_none_iff (ts : String) (l : List ReceiptExtractionResult) :
    aggregate ts l = none ↔ validResults l = [] := by
  cases hs : sortedValid l with
  | nil =>
    have h1 : aggregate ts l = none := by
      unfold aggregate aggregateValid
      rw [show List.insertionSort scoreGE (validResults l) = [] from hs]
    exact iff_of_true h1 ((sortedValid_nil_iff l).mp hs)
  | cons b rest =>
    refine iff_of_false (by rw [aggregate_cons hs]; simp) (fun h => ?_)
    rw [(sortedValid_nil_iff l).mpr h] at hs
    exact List.noConfusion hs

/-- The all-fields-empty merge state, used as a default for `Option.getD`. -/
def mergeStateDefault : MergeState :=
  ⟨none, none, none, none, none, none, none, none, none, none, [], [], []⟩

lemma aggregateCore_getD (l : List ReceiptExtractionResult)
    (h : validResults l ≠ []) :
    aggregateCore l = some ((aggregateCore l).getD mergeStateDefault) := by
  cases hc : aggregateCore l with
  | none => exact absurd ((aggregateCore_none_iff l).mp hc) h
  | some st => rfl

lemma aggregate_timestamp (ts : String) (l : List ReceiptExtractionResult)
    (h : validResults l ≠ []) :
    (aggregate ts l).map (fun rec => rec.processing_timestamp) = some ts := by
  cases hs : sortedValid l with
  | nil => exact absurd ((sortedValid_nil_iff l).mp hs) h
  | cons b rest =>
    rw [aggregate_cons hs]
    rfl

lemma orDefault_of_false {v : Option String} {d : String}
    (h : strPresent v = false) : orDefault v d = d := by
  cases v with
  | none => rfl
  | some s =>
    have hs : s = "" := by simpa [strPresent] using h
    simp [orDefault, hs]

lemma cons_any_iff_valid {l : List ReceiptExtractionResult}
    {b : ReceiptExtractionResult} {rest : List ReceiptExtractionResult}
    (hs : sortedValid l = b :: rest) (p : ReceiptExtractionResult → Bool) :
    (p b || rest.any p) = true ↔ ∃ r ∈ validResults l, p r = true := by
  have hperm := sortedValid_perm l
  rw [hs] at hperm
  rw [← List.any_cons]
  simp only [List.any_eq_true]
  constructor
  · rintro ⟨r, hm, hr⟩
    exact ⟨r, hperm.mem_iff.mp hm, hr⟩
  · rintro ⟨r, hm, hr⟩
    exact ⟨r, hperm.mem_iff.mpr hm, hr⟩

/-- Presence of the five scalar output fields in the merged state, expressed
over the valid input results: a field is truthy in the merged state exactly
when some valid result has it truthy. -/
lemma aggregateCore_presence (l : List ReceiptExtractionResult) (st : MergeState)
    (h : aggregateCore l = some st) :
    (strPresent st.merchant_name = true ↔
      ∃ r ∈ validResults l, strPresent r.merchant_name = true) ∧
    (strPresent st.transaction_date = true ↔
      ∃ r ∈ validResults l, strPresent r.transaction_date = true) ∧
    (strPresent st.transaction_time = true ↔
      ∃ r ∈ validResults l, strPresent r.transaction_time = true) ∧
    (st.total_amount.isSome = true ↔
      ∃ r ∈ validResults l, r.total_amount.isSome = true) ∧
    (strPresent st.currency = true ↔
      ∃ r ∈ validResults l, strPresent r.currency = true) := by
  cases hs : sortedValid l with
  | nil =>
    rw [show aggregateCore l = none by unfold aggregateCore; rw [hs]] at h
    exact Option.noConfusion h
  | cons b rest =>
    rw [aggregateCore_cons hs] at h
    obtain rfl : st = rest.foldl mergeStep (initState b) := (Option.some.inj h).symm
    obtain ⟨i1, i2, i3, i4, i5, -, -, -, -, -⟩ := initState_scalars b
    refine ⟨?_, ?_, ?_, ?_, ?_⟩
    · rw [foldl_presence_m, i1]
      exact cons_any_iff_valid hs (fun r => strPresent r.merchant_name)
    · rw [foldl_presence_d, i2]
      exact cons_any_iff_valid hs (fun r => strPresent r.transaction_date)
    · rw [foldl_presence_t, i3]
      exact cons_any_iff_valid hs (fun r => strPresent r.transaction_time)
    · rw [foldl_presence_a, i4]
      exact cons_any_iff_valid hs (fun r => r.total_amount.isSome)
    · rw [foldl_presence_c, i5]
      exact cons_any_iff_valid hs (fun r => strPresent r.currency)

/-- The merged item keys are exactly the normalized keys of the truthy items
of the valid results, and the merged state satisfies the item invariant. -/
lemma aggregateCore_items (l : List ReceiptExtractionResult) (st : MergeState)
    (h : aggregateCore l = some st) :
    ItemsOk st ∧
    ∀ k, (∃ it ∈ st.items, itemKeyOf it = k) ↔
      ∃ r ∈ validResults l, ∃ it ∈ r.items, itemTruthyDesc it = true ∧ itemKeyOf it = k := by
  cases hs : sortedValid l with
  | nil =>
    rw [show aggregateCore l = none by unfold aggregateCore; rw [hs]] at h
    exact Option.noConfusion h
  | cons b rest =>
    rw [aggregateCore_cons hs] at h
    obtain rfl : st = rest.foldl mergeStep (initState b) := (Option.some.inj h).symm
    have hOk : ItemsOk (rest.foldl mergeStep (initState b)) :=
      itemsOk_foldl_mergeStep rest (initState b) (itemsOk_init b)
    refine ⟨hOk, fun k => ?_⟩
    rw [← hOk.2.1 k, foldl_mergeStep_seen_iff]
    have hInit : k ∈ (initState b).seen ↔
        ∃ it ∈ b.items, itemTruthyDesc it = true ∧ itemKeyOf it = k := by
      have := foldl_addItem_seen_iff b.source b.items
        { merchant_name := b.merchant_name
          transaction_date := b.transaction_date
          transaction_time := b.transaction_time
          total_amount := b.total_amount
          currency := b.currency
          fs_merchant_name := if strPresent b.merchant_name then some b.source else none
          fs_transaction_date := if strPresent b.transaction_date then some b.source else none
          fs_transaction_time := if strPresent b.transaction_time then some b.source else none
          fs_total_amount := if b.total_amount.isSome then some b.source else none
          fs_currency := if strPresent b.currency then some b.source else none
          items := []
          seen := []
          item_sources := [] } k
      simpa [initState] using this
    rw [hInit]
    have hperm := sortedValid_perm l
    rw [hs] at hperm
    constructor
    · rintro (hb | ⟨r, hm, hit⟩)
      · exact ⟨b, hperm.mem_iff.mp (List.mem_cons_self _ _), hb⟩
      · exact ⟨r, hperm.mem_iff.mp (List.mem_cons_of_mem _ hm), hit⟩
    · rintro ⟨r, hm, hit⟩
      rcases List.mem_cons.mp (hperm.mem_iff.mpr hm) with rfl | hm2
      · exact Or.inl hit
      · exact Or.inr ⟨r, hm2, hit⟩

/-- A tie-free sort is permutation-invariant: two arrival orders of the same
valid results with pairwise distinct scores sort to the same list. -/
lemma sortedValid_eq_of_perm (l₁ l₂ : List ReceiptExtractionResult)
    (hp : l₁.Perm l₂)
    (hd : (validResults l₁).Pairwise (fun a b => finalScore a ≠ finalScore b)) :
    sortedValid l₁ = sortedValid l₂ := by
  have hvp : (validResults l₁).Perm (validResults l₂) := hp.filter _
  have hperm : (sortedValid l₁).Perm (sortedValid l₂) :=
    ((sortedValid_perm l₁).trans hvp).trans (sortedValid_perm l₂).symm
  have hd₁ : (sortedValid l₁).Pairwise (fun a b => finalScore a ≠ finalScore b) :=
    ((sortedValid_perm l₁).pairwise_iff (fun h => Ne.symm h)).mpr hd
  have hd₂ : (sortedValid l₂).Pairwise (fun a b => finalScore a ≠ finalScore b) :=
    (hperm.pairwise_iff (fun h => Ne.symm h)).mp hd₁
  have hs₁ : (sortedValid l₁).Sorted scoreGT :=
    ((sortedValid_sorted l₁).and hd₁).imp fun h =>
      lt_of_le_of_ne h.1 h.2.symm
  have hs₂ : (sortedValid l₂).Sorted scoreGT :=
    ((sortedValid_sorted l₂).and hd₂).imp fun h =>
      lt_of_le_of_ne h.1 h.2.symm
  exact List.eq_of_perm_of_sorted hperm hs₁ hs₂

/-- The weights of the present fields as the specification words them: a list
with one weight per present field. -/
def specWeights (r : ReceiptExtractionResult) : List ℚ :=
  (if strPresent r.merchant_name then [2] else []) ++
  (if strPresent r.transaction_date then [2] else []) ++
  (if r.total_amount.isSome then [3] else []) ++
  (if strPresent r.currency then [1] else []) ++
  (if !r.items.isEmpty then [min ((r.items.length : ℚ) * (1/2)) 5] else []) ++
  (if strPresent r.transaction_time then [1] else [])

/-- Normalized completeness as the specification words it: the weighted sum
over present fields divided by the count of present fields, or zero when no
field is present. -/
def specNormalizedCompleteness (r : ReceiptExtractionResult) : ℚ :=
  if specWeights r = [] then 0
  else (specWeights r).sum / ((specWeights r).length : ℚ)

/-- The scoring formula as the specification words it. -/
def specScore (r : ReceiptExtractionResult) : ℚ :=
  (7/10) * specNormalizedCompleteness r + (3/10) * confidenceOf r
    + (1/100) * sourcePriorityOf r.source

/-- Strips the wall-clock component of the output record. -/
def stripTimestamp (rec : FinalReceiptData) : FinalReceiptData :=
  { rec with processing_timestamp := "" }

/-- The six output field values named by the determinism property. -/
def outputSix (o : Option FinalReceiptData) :
    Option (String × String × Option String × ℚ × String × List Item) :=
  o.map fun rec =>
    (rec.merchant_name, rec.transaction_date, rec.transaction_time,
     rec.total_amount, rec.currency, rec.items)

/-- The all-defaults output record, used as an `Option.getD` default. -/
def recDefault : FinalReceiptData :=
  { merchant_name := ""
    transaction_date := ""
    transaction_time := none
    total_amount := 0
    currency := ""
    items := []
    processing_timestamp := ""
    confidence_score := 0
    completeness_score := 0
    aggregation_score := 0
    best_source := ""
    source_scores := []
    field_sources := []
    item_sources := []
    sources_used := []
    blob_name := "" }

lemma aggregate_getD (ts : String) (l : List ReceiptExtractionResult)
    (h : validResults l ≠ []) :
    aggregate ts l = some ((aggregate ts l).getD recDefault) := by
  cases hc : aggregate ts l with
  | none => exact absurd ((aggregate_none_iff ts l).mp hc) h
  | some rec => rfl

lemma aggregate_field_sources (ts : String) (l : List ReceiptExtractionResult)
    (b : ReceiptExtractionResult) (rest : List ReceiptExtractionResult)
    (hs : sortedValid l = b :: rest) :
    ((aggregate ts l).getD recDefault).field_sources =
      fieldSourcesEntries ((aggregateCore l).getD mergeStateDefault) := by
  rw [aggregate_cons hs, aggregateCore_cons hs]
  rfl

/-- A structured-extraction sample: merchant name only, high confidence. -/
def rA : ReceiptExtractionResult :=
  { source := "document_intelligence"
    merchant_name := some "Cafe X"
    confidence_score := some (9/10)
    blob_name := "b.jpg" }

/-- An item with a capitalized description. -/
def latteItem : Item := { description := some "Latte", price := some (9/2) }

/-- The same item description with different case and surrounding spaces. -/
def latte2Item : Item := { description := some "  latte  ", price := some 4 }

/-- An OCR sample: amount, currency and one item, no merchant. -/
def rB : ReceiptExtractionResult :=
  { source := "mistral"
    total_amount := some (9/2)
    currency := some "USD"
    items := [latteItem]
    confidence_score := some (7/10)
    blob_name := "b.jpg" }

/-- A low-confidence fallback sample with a conflicting merchant name. -/
def rC : ReceiptExtractionResult :=
  { source := "direct_extraction"
    merchant_name := some "Other Cafe"
    confidence_score := some (1/10)
    blob_name := "b.jpg" }

/-- A fallback sample whose only payload is a duplicated item. -/
def rF : ReceiptExtractionResult :=
  { source := "direct_extraction"
    items := [latte2Item]
    confidence_score := some (3/5)
    blob_name := "b.jpg" }

/-- A high-scoring sample whose merchant name is the empty string. -/
def rG : ReceiptExtractionResult :=
  { source := "document_intelligence"
    merchant_name := some ""
    transaction_date := some "2024-05-01"
    total_amount := some 10
    currency := some "USD"
    confidence_score := some (9/10)
    blob_name := "b.jpg" }

/-- An error-tagged sample: its raw payload carries an error key. -/
def rErr : ReceiptExtractionResult :=
  { source := "mistral"
    merchant_name := some "Bad"
    raw_response := [("error", "boom")]
    blob_name := "b.jpg" }

lemma score_rA : finalScore rA = 17/10 := by
  simp [finalScore, normalized_completeness, completeness_score, field_counts,
    confidenceOf, sourcePriorityOf, strPresent, rA]
  norm_num

lemma score_rB : finalScore rB = 32/25 := by
  simp [finalScore, normalized_completeness, completeness_score, field_counts,
    confidenceOf, sourcePriorityOf, strPresent, rB, latteItem]
  norm_num

lemma valid_AB : validResults [rA, rB] = [rA, rB] := by
  simp [validResults, hasError, rA, rB]

lemma valid_FB : validResults [rF, rB] = [rF, rB] := by
  simp [validResults, hasError, rF, rB]

lemma sorted_AB : sortedValid [rA, rB] = [rA, rB] := by
  simp [sortedValid, validResults, hasError, rA, rB, latteItem, finalScore,
    normalized_completeness, completeness_score, field_counts, confidenceOf,
    sourcePriorityOf, strPresent, scoreGE]
  norm_num

lemma sorted_CA : sortedValid [rC, rA] = [rA, rC] := by
  simp [sortedValid, validResults, hasError, rA, rC, finalScore,
    normalized_completeness, completeness_score, field_counts, confidenceOf,
    sourcePriorityOf, strPresent, scoreGE]
  norm_num

lemma sorted_FB : sortedValid [rF, rB] = [rB, rF] := by
  simp [sortedValid, validResults, hasError, rF, rB, latteItem, latte2Item,
    finalScore, normalized_completeness, completeness_score, field_counts,
    confidenceOf, sourcePriorityOf, strPresent, scoreGE]
  norm_num

lemma sorted_GC : sortedValid [rG, rC] = [rG, rC] := by
  simp [sortedValid, validResults, hasError, rG, rC, finalScore,
    normalized_completeness, completeness_score, field_counts, confidenceOf,
    sourcePriorityOf, strPresent, scoreGE]
  norm_num

/-- Field attribution over the whole merge: an entry is `none` exactly when
the accumulated value is falsy, and a named source is a valid result that
supplied the accumulated value. -/
lemma aggregateCore_attribution (l : List ReceiptExtractionResult) (st : MergeState)
    (h : aggregateCore l = some st) :
    ((st.fs_merchant_name = none ↔ strPresent st.merchant_name = false) ∧
      ∀ s, st.fs_merchant_name = some s →
        ∃ r ∈ validResults l, r.source = s ∧ strPresent r.merchant_name = true ∧
          st.merchant_name = r.merchant_name) ∧
    ((st.fs_transaction_date = none ↔ strPresent st.transaction_date = false) ∧
      ∀ s, st.fs_transaction_date = some s →
        ∃ r ∈ validResults l, r.source = s ∧ strPresent r.transaction_date = true ∧
          st.transaction_date = r.transaction_date) ∧
    ((st.fs_transaction_time = none ↔ strPresent st.transaction_time = false) ∧
      ∀ s, st.fs_transaction_time = some s →
        ∃ r ∈ validResults l, r.source = s ∧ strPresent r.transaction_time = true ∧
          st.transaction_time = r.transaction_time) ∧
    ((st.fs_total_amount = none ↔ st.total_amount.isSome = false) ∧
      ∀ s, st.fs_total_amount = some s →
        ∃ r ∈ validResults l, r.source = s ∧ r.total_amount.isSome = true ∧
          st.total_amount = r.total_amount) ∧
    ((st.fs_currency = none ↔ strPresent st.currency = false) ∧
      ∀ s, st.fs_currency = some s →
        ∃ r ∈ validResults l, r.source = s ∧ strPresent r.currency = true ∧
          st.currency = r.currency) := by
  cases hs : sortedValid l with
  | nil =>
    rw [show aggregateCore l = none by unfold aggregateCore; rw [hs]] at h
    exact Option.noConfusion h
  | cons b rest =>
    rw [aggregateCore_cons hs] at h
    obtain rfl : st = rest.foldl mergeStep (initState b) := (Option.some.inj h).symm
    have hperm := sortedValid_perm l
    rw [hs] at hperm
    have hM := mOkM_foldl rest [b] (initState b) (mOkM_init b)
    have hD := mOkD_foldl rest [b] (initState b) (mOkD_init b)
    have hT := mOkT_foldl rest [b] (initState b) (mOkT_init b)
    have hA := mOkA_foldl rest [b] (initState b) (mOkA_init b)
    have hC := mOkC_foldl rest [b] (initState b) (mOkC_init b)
    refine ⟨⟨hM.1, fun s hs2 => ?_⟩, ⟨hD.1, fun s hs2 => ?_⟩, ⟨hT.1, fun s hs2 => ?_⟩,
      ⟨hA.1, fun s hs2 => ?_⟩, ⟨hC.1, fun s hs2 => ?_⟩⟩
    · obtain ⟨r, hm, p⟩ := hM.2 s hs2
      exact ⟨r, hperm.mem_iff.mp hm, p⟩
    · obtain ⟨r, hm, p⟩ := hD.2 s hs2
      exact ⟨r, hperm.mem_iff.mp hm, p⟩
    · obtain ⟨r, hm, p⟩ := hT.2 s hs2
      exact ⟨r, hperm.mem_iff.mp hm, p⟩
    · obtain ⟨r, hm, p⟩ := hA.2 s hs2
      exact ⟨r, hperm.mem_iff.mp hm, p⟩
    · obtain ⟨r, hm, p⟩ := hC.2 s hs2
      exact ⟨r, hperm.mem_iff.mp hm, p⟩

/-- The item components of the merge state, bundled. -/
def itemPart (st : MergeState) :=
  (st.items, st.seen, st.item_sources)

lemma addItem_itemPart_congr {s t : MergeState} (src : String) (it : Item)
    (h : itemPart s = itemPart t) :
    itemPart (addItem src s it) = itemPart (addItem src t it) := by
  have h1 : s.items = t.items := congrArg (fun p => p.1) h
  have h2 : s.seen = t.seen := congrArg (fun p => p.2.1) h
  have h3 : s.item_sources = t.item_sources := congrArg (fun p => p.2.2) h
  unfold addItem
  rw [h2]
  split_ifs <;> simp [itemPart, h1, h2, h3]

lemma foldl_addItem_itemPart_congr (src : String) (items : List Item)
    {s t : MergeState} (h : itemPart s = itemPart t) :
    itemPart (items.foldl (addItem src) s) = itemPart (items.foldl (addItem src) t) := by
  induction items generalizing s t with
  | nil => exact h
  | cons it rest ih =>
    simp only [List.foldl_cons]
    exact ih (addItem_itemPart_congr src it h)

lemma mergeStep_itemPart_congr {s t : MergeState} (r : ReceiptExtractionResult)
    (h : itemPart s = itemPart t) :
    itemPart (mergeStep s r) = itemPart (mergeStep t r) :=
  foldl_addItem_itemPart_congr r.source r.items h

lemma foldl_mergeStep_itemPart_congr (rs : List ReceiptExtractionResult)
    {s t : MergeState} (h : itemPart s = itemPart t) :
    itemPart (rs.foldl mergeStep s) = itemPart (rs.foldl mergeStep t) := by
  induction rs generalizing s t with
  | nil => exact h
  | cons r rest ih =>
    simp only [List.foldl_cons]
    exact ih (mergeStep_itemPart_congr r h)

/-- Walking the whole sorted list from the empty state produces the same item
components as seeding from the base and walking the remainder: the item logic
treats the base exactly like any later result. -/
lemma cons_fold_itemPart (b : ReceiptExtractionResult)
    (rest : List ReceiptExtractionResult) :
    itemPart ((b :: rest).foldl mergeStep mergeStateDefault) =
      itemPart (rest.foldl mergeStep (initState b)) := by
  simp only [List.foldl_cons]
  exact foldl_mergeStep_itemPart_congr rest
    (foldl_addItem_itemPart_congr b.source b.items rfl)

/-- C1.  No-overwrite / strict gap-filling: at any point of the walk over the
sorted valid results (base `b`, walked results `u`, remaining results `v`), a
scalar field already set (truthy for strings, non-`None` for the amount) keeps
its value and its `field_sources` attribution in the final merged state, so a
lower-ranked result is adopted only for fields the higher-ranked results left
unset. -/
theorem merge_no_overwrite (l : List ReceiptExtractionResult)
    (b : ReceiptExtractionResult) (u v : List ReceiptExtractionResult)
    (st : MergeState) (hs : sortedValid l = b :: (u ++ v))
    (h : aggregateCore l = some st) :
    (strPresent (u.foldl mergeStep (initState b)).merchant_name = true →
      st.merchant_name = (u.foldl mergeStep (initState b)).merchant_name ∧
      st.fs_merchant_name = (u.foldl mergeStep (initState b)).fs_merchant_name) ∧
    (strPresent (u.foldl mergeStep (initState b)).transaction_date = true →
      st.transaction_date = (u.foldl mergeStep (initState b)).transaction_date ∧
      st.fs_transaction_date = (u.foldl mergeStep (initState b)).fs_transaction_date) ∧
    (strPresent (u.foldl mergeStep (initState b)).transaction_time = true →
      st.transaction_time = (u.foldl mergeStep (initState b)).transaction_time ∧
      st.fs_transaction_time = (u.foldl mergeStep (initState b)).fs_transaction_time) ∧
    ((u.foldl mergeStep (initState b)).total_amount.isSome = true →
      st.total_amount = (u.foldl mergeStep (initState b)).total_amount ∧
      st.fs_total_amount = (u.foldl mergeStep (initState b)).fs_total_amount) ∧
    (strPresent (u.foldl mergeStep (initState b)).currency = true →
      st.currency = (u.foldl mergeStep (initState b)).currency ∧
      st.fs_currency = (u.foldl mergeStep (initState b)).fs_currency) := by
  rw [aggregateCore_cons hs] at h
  obtain rfl : st = (u ++ v).foldl mergeStep (initState b) := (Option.some.inj h).symm
  rw [List.foldl_append]
  exact ⟨fun hp => foldl_freeze_m v _ hp, fun hp => foldl_freeze_d v _ hp,
    fun hp => foldl_freeze_t v _ hp, fun hp => foldl_freeze_a v _ hp,
    fun hp => foldl_freeze_c v _ hp⟩

theorem merge_no_overwrite_witness :
    strPresent (initState rA).merchant_name = true ∧
    strPresent rC.merchant_name = true ∧
    rC.merchant_name ≠ (initState rA).merchant_name ∧
    ((aggregateCore [rC, rA]).getD mergeStateDefault).merchant_name =
      (initState rA).merchant_name ∧
    ((aggregateCore [rC, rA]).getD mergeStateDefault).fs_merchant_name =
      (initState rA).fs_merchant_name := by
  have hs : sortedValid [rC, rA] = rA :: (([] : List ReceiptExtractionResult) ++ [rC]) := by
    rw [sorted_CA]
    rfl
  have h := merge_no_overwrite [rC, rA] rA [] [rC] _ hs
    (aggregateCore_getD [rC, rA] (by decide))
  have hp : strPresent (initState rA).merchant_name = true := by decide
  exact ⟨hp, by decide, by decide, (h.1 hp).1, (h.1 hp).2⟩

/-- C3.  Determinism / order-independence: two arrival orders of the same
result set produce the same six output field values whenever the valid
results have pairwise distinct scores (ties are broken by arrival order via
the stable descending sort, so only equal scores can be order-dependent). -/
theorem merge_order_independent (ts₁ ts₂ : String)
    (l₁ l₂ : List ReceiptExtractionResult) (hp : l₁.Perm l₂)
    (hd : (validResults l₁).Pairwise fun a b => finalScore a ≠ finalScore b) :
    outputSix (aggregate ts₁ l₁) = outputSix (aggregate ts₂ l₂) := by
  have hsort := sortedValid_eq_of_perm l₁ l₂ hp hd
  cases hs₂ : sortedValid l₂ with
  | nil =>
    rw [(aggregate_none_iff ts₁ l₁).mpr ((sortedValid_nil_iff l₁).mp (hsort.trans hs₂)),
      (aggregate_none_iff ts₂ l₂).mpr ((sortedValid_nil_iff l₂).mp hs₂)]
  | cons b rest =>
    rw [aggregate_cons (hsort.trans hs₂), aggregate_cons hs₂]
    simp [outputSix, finalize]

theorem merge_order_independent_witness :
    [rA, rB].Perm [rB, rA] ∧
    (validResults [rA, rB]).Pairwise (fun a b => finalScore a ≠ finalScore b) ∧
    outputSix (aggregate "t1" [rA, rB]) = outputSix (aggregate "t2" [rB, rA]) := by
  have hp : [rA, rB].Perm [rB, rA] := List.Perm.swap rB rA []
  have hd : (validResults [rA, rB]).Pairwise
      (fun a b => finalScore a ≠ finalScore b) := by
    rw [valid_AB]
    refine List.Pairwise.cons ?_ (List.pairwise_singleton _ _)
    intro x hx
    obtain rfl := List.mem_singleton.mp hx
    rw [score_rA, score_rB]
    norm_num
  exact ⟨hp, hd, merge_order_independent "t1" "t2" [rA, rB] [rB, rA] hp hd⟩

/-- C4 counterexample.  Two invocations of the merge on the identical
accumulated set are not byte-identical: the record embeds the invocation
wall-clock timestamp, so the outputs differ whenever the clock readings
differ. -/
theorem merge_idempotence_counterexample :
    aggregate "2024-01-01T10:00:00" [rA] ≠ aggregate "2024-01-01T10:00:01" [rA] := by
  intro h
  have h1 := aggregate_timestamp "2024-01-01T10:00:00" [rA] (by decide)
  have h2 := aggregate_timestamp "2024-01-01T10:00:01" [rA] (by decide)
  rw [h] at h1
  have h3 := h1.symm.trans h2
  simp at h3

/-- C4 amended.  Idempotence up to the wall clock: repeated merges of the same
accumulated set agree on every component of the output record except
`metadata.processing_timestamp`, which records each invocation wall-clock
reading; with the timestamp fixed the output is byte-identical. -/
theorem merge_idempotent_up_to_timestamp (ts₁ ts₂ : String)
    (l : List ReceiptExtractionResult) :
    (aggregate ts₁ l).map stripTimestamp = (aggregate ts₂ l).map stripTimestamp := by
  cases hs : sortedValid l with
  | nil =>
    rw [(aggregate_none_iff ts₁ l).mpr ((sortedValid_nil_iff l).mp hs),
      (aggregate_none_iff ts₂ l).mpr ((sortedValid_nil_iff l).mp hs)]
  | cons b rest =>
    rw [aggregate_cons hs, aggregate_cons hs]
    simp [stripTimestamp, finalize]

/-- C5.  Exclusion of errors: a result whose raw payload carries an `"error"`
key can be inserted anywhere in (or removed from) the accumulated list without
changing the merged output at all, so it never appears in `sources_used`,
contributes nothing to `field_sources` or `item_sources`, and never affects
the score ordering of the valid results. -/
theorem error_results_ignored (ts : String)
    (l₁ l₂ : List ReceiptExtractionResult) (r : ReceiptExtractionResult)
    (h : hasError r = true) :
    aggregate ts (l₁ ++ r :: l₂) = aggregate ts (l₁ ++ l₂) := by
  unfold aggregate
  congr 1
  simp [validResults, List.filter_append, List.filter_cons, h]

theorem error_results_ignored_witness :
    hasError rErr = true ∧
    aggregate "t" ([rA] ++ rErr :: []) = aggregate "t" ([rA] ++ []) :=
  ⟨by decide, error_results_ignored "t" [rA] [] rErr (by decide)⟩

/-- C6.  NoValidResults terminal state: when every accumulated result carries
an error marker (in particular for the empty accumulation), the merge signals
the no-valid-results outcome (`none`) instead of emitting a defaulted
record. -/
theorem no_valid_results_signal (ts : String) (l : List ReceiptExtractionResult)
    (h : ∀ r ∈ l, hasError r = true) :
    aggregate ts l = none := by
  rw [aggregate_none_iff]
  unfold validResults
  rw [List.filter_eq_nil_iff]
  intro a ha
  simp [h a ha]

theorem no_valid_results_signal_witness :
    (∀ r ∈ [rErr], hasError r = true) ∧
    aggregate "t" [rErr] = none ∧
    aggregate "t" ([] : List ReceiptExtractionResult) = none :=
  ⟨by decide, no_valid_results_signal "t" [rErr] (by decide),
    no_valid_results_signal "t" [] (by simp)⟩

/-- C8.  Completeness monotonicity: extending the accumulated list by one more
result keeps every scalar field that was already filled in the merged state
filled, and keeps every normalized item key present in the merged items. -/
theorem merge_monotone (l : List ReceiptExtractionResult)
    (r : ReceiptExtractionResult) (st st' : MergeState)
    (h : aggregateCore l = some st) (h' : aggregateCore (l ++ [r]) = some st') :
    (strPresent st.merchant_name = true → strPresent st'.merchant_name = true) ∧
    (strPresent st.transaction_date = true → strPresent st'.transaction_date = true) ∧
    (strPresent st.transaction_time = true → strPresent st'.transaction_time = true) ∧
    (st.total_amount.isSome = true → st'.total_amount.isSome = true) ∧
    (strPresent st.currency = true → strPresent st'.currency = true) ∧
    (∀ k, (∃ it ∈ st.items, itemKeyOf it = k) → ∃ it ∈ st'.items, itemKeyOf it = k) := by
  obtain ⟨p1, p2, p3, p4, p5⟩ := aggregateCore_presence l st h
  obtain ⟨q1, q2, q3, q4, q5⟩ := aggregateCore_presence (l ++ [r]) st' h'
  have hsub : ∀ x, x ∈ validResults l → x ∈ validResults (l ++ [r]) := by
    intro x hx
    unfold validResults at hx ⊢
    rw [List.filter_append]
    exact List.mem_append_left _ hx
  obtain ⟨-, hk⟩ := aggregateCore_items l st h
  obtain ⟨-, hk2⟩ := aggregateCore_items (l ++ [r]) st' h'
  refine ⟨?_, ?_, ?_, ?_, ?_, ?_⟩
  · intro hp
    obtain ⟨x, hm, hx⟩ := p1.mp hp
    exact q1.mpr ⟨x, hsub x hm, hx⟩
  · intro hp
    obtain ⟨x, hm, hx⟩ := p2.mp hp
    exact q2.mpr ⟨x, hsub x hm, hx⟩
  · intro hp
    obtain ⟨x, hm, hx⟩ := p3.mp hp
    exact q3.mpr ⟨x, hsub x hm, hx⟩
  · intro hp
    obtain ⟨x, hm, hx⟩ := p4.mp hp
    exact q4.mpr ⟨x, hsub x hm, hx⟩
  · intro hp
    obtain ⟨x, hm, hx⟩ := p5.mp hp
    exact q5.mpr ⟨x, hsub x hm, hx⟩
  · intro k hex
    obtain ⟨x, hm, hit⟩ := (hk k).mp hex
    exact (hk2 k).mpr ⟨x, hsub x hm, hit⟩

theorem merge_monotone_witness :
    (strPresent ((aggregateCore [rA]).getD mergeStateDefault).merchant_name = true →
      strPresent ((aggregateCore ([rA] ++ [rB])).getD mergeStateDefault).merchant_name
        = true) ∧
    (strPresent ((aggregateCore [rA]).getD mergeStateDefault).transaction_date = true →
      strPresent ((aggregateCore ([rA] ++ [rB])).getD mergeStateDefault).transaction_date
        = true) ∧
    (strPresent ((aggregateCore [rA]).getD mergeStateDefault).transaction_time = true →
      strPresent ((aggregateCore ([rA] ++ [rB])).getD mergeStateDefault).transaction_time
        = true) ∧
    (((aggregateCore [rA]).getD mergeStateDefault).total_amount.isSome = true →
      ((aggregateCore ([rA] ++ [rB])).getD mergeStateDefault).total_amount.isSome
        = true) ∧
    (strPresent ((aggregateCore [rA]).getD mergeStateDefault).currency = true →
      strPresent ((aggregateCore ([rA] ++ [rB])).getD mergeStateDefault).currency
        = true) ∧
    (∀ k, (∃ it ∈ ((aggregateCore [rA]).getD mergeStateDefault).items,
        itemKeyOf it = k) →
      ∃ it ∈ ((aggregateCore ([rA] ++ [rB])).getD mergeStateDefault).items,
        itemKeyOf it = k) :=
  merge_monotone [rA] rB _ _ (aggregateCore_getD [rA] (by decide))
    (aggregateCore_getD ([rA] ++ [rB]) (by decide))

/-- C2.  Scoring function: the sequentially accumulated score of the code
equals the closed formula of the specification, 0.7 times the normalized
completeness (weighted sum over present fields divided by their count, zero
when none is present) plus 0.3 times the confidence plus 0.01 times the
source priority. -/
theorem score_spec_formula (r : ReceiptExtractionResult) :
    finalScore r = specScore r := by
  unfold finalScore specScore specNormalizedCompleteness specWeights
    normalized_completeness completeness_score field_counts
  cases h1 : strPresent r.merchant_name <;>
    cases h2 : strPresent r.transaction_date <;>
      cases h3 : r.total_amount.isSome <;>
        cases h4 : strPresent r.currency <;>
          cases h5 : r.items.isEmpty <;>
            cases h6 : strPresent r.transaction_time <;>
              simp [h1, h2, h3, h4, h5, h6] <;> ring

lemma none_iff_not {o : Option String} {b : Bool} {P : Prop}
    (h₁ : o = none ↔ b = false) (h₂ : b = true ↔ P) : o = none ↔ ¬P := by
  rw [h₁]
  constructor
  · intro hb hP
    rw [h₂.mpr hP] at hb
    exact Bool.noConfusion hb
  · intro hnP
    cases hb : b
    · rfl
    · exact absurd (h₂.mp hb) hnP

/-- C9 counterexample.  The claim says a field no source supplied is absent
from `field_sources`; in the code the entry is present and maps to `None`:
here no valid source supplies `transaction_time`, yet the merged record
contains the entry `("transaction_time", none)`. -/
theorem field_sources_entry_counterexample :
    (aggregate "t0" [rA, rB]).isSome = true ∧
    (validResults [rA, rB]).all (fun r => !strPresent r.transaction_time) = true ∧
    ("transaction_time", (none : Option String)) ∈
      ((aggregate "t0" [rA, rB]).getD recDefault).field_sources := by
  refine ⟨by rw [aggregate_cons sorted_AB]; rfl, by decide, ?_⟩
  have hcore := aggregateCore_getD [rA, rB] (by decide)
  obtain ⟨-, -, ⟨aT, -⟩, -, -⟩ := aggregateCore_attribution [rA, rB] _ hcore
  obtain ⟨-, -, pT, -, -⟩ := aggregateCore_presence [rA, rB] _ hcore
  have hno : ¬∃ r ∈ validResults [rA, rB], strPresent r.transaction_time = true := by
    decide
  have hfs : ((aggregateCore [rA, rB]).getD mergeStateDefault).fs_transaction_time
      = none := by
    apply aT.mpr
    cases hb : strPresent
        ((aggregateCore [rA, rB]).getD mergeStateDefault).transaction_time
    · rfl
    · exact absurd (pT.mp hb) hno
  rw [aggregate_field_sources "t0" [rA, rB] rA [rB] sorted_AB]
  simp [fieldSourcesEntries, hfs]

/-- C9 amended.  `field_sources` always carries an entry for each of the five
scalar fields; the entry names the valid source whose value was actually used,
and maps to `None` (rather than being absent) exactly when no valid source
supplied the field. -/
theorem field_sources_attribution (l : List ReceiptExtractionResult)
    (st : MergeState) (h : aggregateCore l = some st) :
    ("merchant_name", st.fs_merchant_name) ∈ fieldSourcesEntries st ∧
    ("transaction_date", st.fs_transaction_date) ∈ fieldSourcesEntries st ∧
    ("transaction_time", st.fs_transaction_time) ∈ fieldSourcesEntries st ∧
    ("total_amount", st.fs_total_amount) ∈ fieldSourcesEntries st ∧
    ("currency", st.fs_currency) ∈ fieldSourcesEntries st ∧
    (st.fs_merchant_name = none ↔
      ¬∃ r ∈ validResults l, strPresent r.merchant_name = true) ∧
    (∀ s, st.fs_merchant_name = some s → ∃ r ∈ validResults l, r.source = s ∧
      strPresent r.merchant_name = true ∧ st.merchant_name = r.merchant_name) ∧
    (st.fs_transaction_date = none ↔
      ¬∃ r ∈ validResults l, strPresent r.transaction_date = true) ∧
    (∀ s, st.fs_transaction_date = some s → ∃ r ∈ validResults l, r.source = s ∧
      strPresent r.transaction_date = true ∧
      st.transaction_date = r.transaction_date) ∧
    (st.fs_transaction_time = none ↔
      ¬∃ r ∈ validResults l, strPresent r.transaction_time = true) ∧
    (∀ s, st.fs_transaction_time = some s → ∃ r ∈ validResults l, r.source = s ∧
      strPresent r.transaction_time = true ∧
      st.transaction_time = r.transaction_time) ∧
    (st.fs_total_amount = none ↔
      ¬∃ r ∈ validResults l, r.total_amount.isSome = true) ∧
    (∀ s, st.fs_total_amount = some s → ∃ r ∈ validResults l, r.source = s ∧
      r.total_amount.isSome = true ∧ st.total_amount = r.total_amount) ∧
    (st.fs_currency = none ↔
      ¬∃ r ∈ validResults l, strPresent r.currency = true) ∧
    (∀ s, st.fs_currency = some s → ∃ r ∈ validResults l, r.source = s ∧
      strPresent r.currency = true ∧ st.currency = r.currency) := by
  obtain ⟨p1, p2, p3, p4, p5⟩ := aggregateCore_presence l st h
  obtain ⟨a1, a2, a3, a4, a5⟩ := aggregateCore_attribution l st h
  exact ⟨by simp [fieldSourcesEntries], by simp [fieldSourcesEntries],
    by simp [fieldSourcesEntries], by simp [fieldSourcesEntries],
    by simp [fieldSourcesEntries],
    none_iff_not a1.1 p1, a1.2, none_iff_not a2.1 p2, a2.2,
    none_iff_not a3.1 p3, a3.2, none_iff_not a4.1 p4, a4.2,
    none_iff_not a5.1 p5, a5.2⟩

theorem field_sources_attribution_witness :
    ("merchant_name",
        ((aggregateCore [rA, rB]).getD mergeStateDefault).fs_merchant_name) ∈
      fieldSourcesEntries ((aggregateCore [rA, rB]).getD mergeStateDefault) ∧
    ("transaction_date",
        ((aggregateCore [rA, rB]).getD mergeStateDefault).fs_transaction_date) ∈
      fieldSourcesEntries ((aggregateCore [rA, rB]).getD mergeStateDefault) ∧
    ("transaction_time",
        ((aggregateCore [rA, rB]).getD mergeStateDefault).fs_transaction_time) ∈
      fieldSourcesEntries ((aggregateCore [rA, rB]).getD mergeStateDefault) ∧
    ("total_amount",
        ((aggregateCore [rA, rB]).getD mergeStateDefault).fs_total_amount) ∈
      fieldSourcesEntries ((aggregateCore [rA, rB]).getD mergeStateDefault) ∧
    ("currency",
        ((aggregateCore [rA, rB]).getD mergeStateDefault).fs_currency) ∈
      fieldSourcesEntries ((aggregateCore [rA, rB]).getD mergeStateDefault) ∧
    (((aggregateCore [rA, rB]).getD mergeStateDefault).fs_merchant_name = none ↔
      ¬∃ r ∈ validResults [rA, rB], strPresent r.merchant_name = true) ∧
    (∀ s, ((aggregateCore [rA, rB]).getD mergeStateDefault).fs_merchant_name
        = some s →
      ∃ r ∈ validResults [rA, rB], r.source = s ∧
        strPresent r.merchant_name = true ∧
        ((aggregateCore [rA, rB]).getD mergeStateDefault).merchant_name
          = r.merchant_name) ∧
    (((aggregateCore [rA, rB]).getD mergeStateDefault).fs_transaction_date = none ↔
      ¬∃ r ∈ validResults [rA, rB], strPresent r.transaction_date = true) ∧
    (∀ s, ((aggregateCore [rA, rB]).getD mergeStateDefault).fs_transaction_date
        = some s →
      ∃ r ∈ validResults [rA, rB], r.source = s ∧
        strPresent r.transaction_date = true ∧
        ((aggregateCore [rA, rB]).getD mergeStateDefault).transaction_date
          = r.transaction_date) ∧
    (((aggregateCore [rA, rB]).getD mergeStateDefault).fs_transaction_time = none ↔
      ¬∃ r ∈ validResults [rA, rB], strPresent r.transaction_time = true) ∧
    (∀ s, ((aggregateCore [rA, rB]).getD mergeStateDefault).fs_transaction_time
        = some s →
      ∃ r ∈ validResults [rA, rB], r.source = s ∧
        strPresent r.transaction_time = true ∧
        ((aggregateCore [rA, rB]).getD mergeStateDefault).transaction_time
          = r.transaction_time) ∧
    (((aggregateCore [rA, rB]).getD mergeStateDefault).fs_total_amount = none ↔
      ¬∃ r ∈ validResults [rA, rB], r.total_amount.isSome = true) ∧
    (∀ s, ((aggregateCore [rA, rB]).getD mergeStateDefault).fs_total_amount
        = some s →
      ∃ r ∈ validResults [rA, rB], r.source = s ∧ r.total_amount.isSome = true ∧
        ((aggregateCore [rA, rB]).getD mergeStateDefault).total_amount
          = r.total_amount) ∧
    (((aggregateCore [rA, rB]).getD mergeStateDefault).fs_currency = none ↔
      ¬∃ r ∈ validResults [rA, rB], strPresent r.currency = true) ∧
    (∀ s, ((aggregateCore [rA, rB]).getD mergeStateDefault).fs_currency = some s →
      ∃ r ∈ validResults [rA, rB], r.source = s ∧ strPresent r.currency = true ∧
        ((aggregateCore [rA, rB]).getD mergeStateDefault).currency = r.currency) :=
  field_sources_attribution [rA, rB] _ (aggregateCore_getD [rA, rB] (by decide))

/-- C7.  Item deduplication: every merged item has a truthy description,
merged items have pairwise distinct normalized keys, and whenever two valid
results both contribute items with the same key, exactly one merged item has
that key, it comes from a valid result scoring at least as high as both, and
`item_sources` attributes it to that result. -/
theorem item_dedup (l : List ReceiptExtractionResult) (st : MergeState)
    (h : aggregateCore l = some st) :
    (∀ it ∈ st.items, itemTruthyDesc it = true) ∧
    List.Pairwise (fun a b => itemKeyOf a ≠ itemKeyOf b) st.items ∧
    ∀ k r₁ r₂, r₁ ∈ validResults l → r₂ ∈ validResults l →
      (∃ it ∈ r₁.items, itemTruthyDesc it = true ∧ itemKeyOf it = k) →
      (∃ it ∈ r₂.items, itemTruthyDesc it = true ∧ itemKeyOf it = k) →
      ∃ r it, r ∈ validResults l ∧ it ∈ r.items ∧ itemTruthyDesc it = true ∧
        itemKeyOf it = k ∧ it ∈ st.items ∧
        (it.description, r.source) ∈ st.item_sources ∧
        finalScore r₁ ≤ finalScore r ∧ finalScore r₂ ≤ finalScore r ∧
        ∀ it₂ ∈ st.items, itemKeyOf it₂ = k → it₂ = it := by
  obtain ⟨hOk, -⟩ := aggregateCore_items l st h
  refine ⟨hOk.1, hOk.2.2, ?_⟩
  intro k r₁ r₂ hm₁ hm₂ he₁ he₂
  cases hs : sortedValid l with
  | nil =>
    rw [show aggregateCore l = none by unfold aggregateCore; rw [hs]] at h
    exact Option.noConfusion h
  | cons b rest =>
    have hperm := sortedValid_perm l
    rw [hs] at hperm
    obtain ⟨u, rWin, v, hsplit, hu, it, hitm, ht, hkey, hin, hsrc⟩ :=
      key_attribution (b :: rest) mergeStateDefault k (by simp [mergeStateDefault])
        ⟨r₁, hperm.mem_iff.mpr hm₁, he₁⟩
    rw [aggregateCore_cons hs] at h
    obtain rfl : st = rest.foldl mergeStep (initState b) := (Option.some.inj h).symm
    have hip := cons_fold_itemPart b rest
    have hItems : ((b :: rest).foldl mergeStep mergeStateDefault).items =
        (rest.foldl mergeStep (initState b)).items := congrArg (fun p => p.1) hip
    have hSrcs : ((b :: rest).foldl mergeStep mergeStateDefault).item_sources =
        (rest.foldl mergeStep (initState b)).item_sources :=
      congrArg (fun p => p.2.2) hip
    rw [hItems] at hin
    rw [hSrcs] at hsrc
    have hrmem : rWin ∈ validResults l := by
      apply hperm.mem_iff.mp
      rw [hsplit]
      exact List.mem_append_right _ (List.mem_cons_self _ _)
    have hmax : ∀ r₀ ∈ b :: rest,
        (∃ it₀ ∈ r₀.items, itemTruthyDesc it₀ = true ∧ itemKeyOf it₀ = k) →
        finalScore r₀ ≤ finalScore rWin := by
      intro r₀ hr₀ he₀
      have hr₀2 : r₀ ∈ u ++ rWin :: v := by rw [← hsplit]; exact hr₀
      rcases List.mem_append.mp hr₀2 with hr₀u | hr₀rv
      · exact absurd he₀ (hu r₀ hr₀u)
      · rcases List.mem_cons.mp hr₀rv with rfl | hr₀v
        · exact le_refl _
        · have hsorted := sortedValid_sorted l
          rw [hs, hsplit] at hsorted
          have hpw := (List.pairwise_append.mp hsorted).2.1
          exact (List.pairwise_cons.mp hpw).1 r₀ hr₀v
    have huniq : ∀ it₂ ∈ (rest.foldl mergeStep (initState b)).items,
        itemKeyOf it₂ = k → it₂ = it := by
      intro it₂ hmem₂ hkey₂
      by_contra hne
      have hforall := List.Pairwise.forall
        (fun x y (hxy : itemKeyOf x ≠ itemKeyOf y) => hxy.symm) hOk.2.2
      exact hforall hmem₂ hin hne (hkey₂.trans hkey.symm)
    exact ⟨rWin, it, hrmem, hitm, ht, hkey, hin, hsrc,
      hmax r₁ (hperm.mem_iff.mpr hm₁) he₁, hmax r₂ (hperm.mem_iff.mpr hm₂) he₂,
      huniq⟩

theorem item_dedup_witness :
    ∃ r it, r ∈ validResults [rF, rB] ∧ it ∈ r.items ∧ itemTruthyDesc it = true ∧
      itemKeyOf it = "latte" ∧
      it ∈ ((aggregateCore [rF, rB]).getD mergeStateDefault).items ∧
      (it.description, r.source) ∈
        ((aggregateCore [rF, rB]).getD mergeStateDefault).item_sources ∧
      finalScore rB ≤ finalScore r ∧ finalScore rF ≤ finalScore r ∧
      ∀ it₂ ∈ ((aggregateCore [rF, rB]).getD mergeStateDefault).items,
        itemKeyOf it₂ = "latte" → it₂ = it := by
  have h := item_dedup [rF, rB] _ (aggregateCore_getD [rF, rB] (by decide))
  exact h.2.2 "latte" rB rF (by rw [valid_FB]; simp) (by rw [valid_FB]; simp)
    ⟨latteItem, by simp [rB], by decide, by decide⟩
    ⟨latte2Item, by simp [rF], by decide, by decide⟩

/-- A high-scoring base sample whose four scalar string fields are all the
empty string (the amount and confidence keep its score above the fallback). -/
def rE0 : ReceiptExtractionResult :=
  { source := "document_intelligence"
    merchant_name := some ""
    transaction_date := some ""
    transaction_time := some ""
    total_amount := some 10
    currency := some ""
    confidence_score := some (9/10)
    blob_name := "b.jpg" }

/-- A lower-scoring fallback sample with truthy values for all four scalar
string fields. -/
def rFull : ReceiptExtractionResult :=
  { source := "direct_extraction"
    merchant_name := some "Other Cafe"
    transaction_date := some "2024-06-01"
    transaction_time := some "12:00"
    currency := some "EUR"
    blob_name := "b.jpg" }

lemma sorted_E0Full : sortedValid [rFull, rE0] = [rE0, rFull] := by
  simp [sortedValid, validResults, hasError, rE0, rFull, finalScore,
    normalized_completeness, completeness_score, field_counts, confidenceOf,
    sourcePriorityOf, strPresent, scoreGE]
  norm_num

/-- C10.  Empty strings behave as absent throughout the aggregation, for every
scalar string field (merchant_name, transaction_date, transaction_time,
currency): an empty string contributes nothing to the score, receives no
`field_sources` attribution even when it comes from the base result, does not
block gap-filling by a lower-ranked truthy value, and a defaulted string field
(merchant, date, currency) whose every valid value is falsy receives the
output default. -/
theorem empty_string_as_absent :
    (∀ r : ReceiptExtractionResult,
      finalScore { r with merchant_name := some "" } =
        finalScore { r with merchant_name := none } ∧
      finalScore { r with transaction_date := some "" } =
        finalScore { r with transaction_date := none } ∧
      finalScore { r with transaction_time := some "" } =
        finalScore { r with transaction_time := none } ∧
      finalScore { r with currency := some "" } =
        finalScore { r with currency := none }) ∧
    (∀ l st, aggregateCore l = some st →
      (st.merchant_name = some "" → st.fs_merchant_name = none) ∧
      (st.transaction_date = some "" → st.fs_transaction_date = none) ∧
      (st.transaction_time = some "" → st.fs_transaction_time = none) ∧
      (st.currency = some "" → st.fs_currency = none)) ∧
    (∀ l b rest st r, sortedValid l = b :: rest → aggregateCore l = some st →
      r ∈ rest →
      (b.merchant_name = some "" → strPresent r.merchant_name = true →
        strPresent st.merchant_name = true) ∧
      (b.transaction_date = some "" → strPresent r.transaction_date = true →
        strPresent st.transaction_date = true) ∧
      (b.transaction_time = some "" → strPresent r.transaction_time = true →
        strPresent st.transaction_time = true) ∧
      (b.currency = some "" → strPresent r.currency = true →
        strPresent st.currency = true)) ∧
    (∀ ts l rec, aggregate ts l = some rec →
      ((∀ r₀ ∈ validResults l, strPresent r₀.merchant_name = false) →
        rec.merchant_name = "Unknown") ∧
      ((∀ r₀ ∈ validResults l, strPresent r₀.transaction_date = false) →
        rec.transaction_date = "Unknown") ∧
      ((∀ r₀ ∈ validResults l, strPresent r₀.currency = false) →
        rec.currency = "USD")) := by
  refine ⟨?_, ?_, ?_, ?_⟩
  · intro r
    refine ⟨?_, ?_, ?_, ?_⟩ <;>
      simp [finalScore, normalized_completeness, completeness_score, field_counts,
        confidenceOf, sourcePriorityOf, strPresent]
  · intro l st h
    obtain ⟨a1, a2, a3, -, a5⟩ := aggregateCore_attribution l st h
    refine ⟨fun hblank => ?_, fun hblank => ?_, fun hblank => ?_, fun hblank => ?_⟩
    · apply a1.1.mpr
      rw [hblank]
      rfl
    · apply a2.1.mpr
      rw [hblank]
      rfl
    · apply a3.1.mpr
      rw [hblank]
      rfl
    · apply a5.1.mpr
      rw [hblank]
      rfl
  · intro l b rest st r hs h hmem
    rw [aggregateCore_cons hs] at h
    obtain rfl : st = rest.foldl mergeStep (initState b) := (Option.some.inj h).symm
    obtain ⟨i1, i2, i3, -, i5, -, -, -, -, -⟩ := initState_scalars b
    refine ⟨fun _ hrp => ?_, fun _ hrp => ?_, fun _ hrp => ?_, fun _ hrp => ?_⟩
    · rw [foldl_presence_m, i1, List.any_eq_true.mpr ⟨r, hmem, hrp⟩]
      simp
    · rw [foldl_presence_d, i2, List.any_eq_true.mpr ⟨r, hmem, hrp⟩]
      simp
    · rw [foldl_presence_t, i3, List.any_eq_true.mpr ⟨r, hmem, hrp⟩]
      simp
    · rw [foldl_presence_c, i5, List.any_eq_true.mpr ⟨r, hmem, hrp⟩]
      simp
  · intro ts l rec h
    cases hs : sortedValid l with
    | nil =>
      rw [(aggregate_none_iff ts l).mpr ((sortedValid_nil_iff l).mp hs)] at h
      exact Option.noConfusion h
    | cons b rest =>
      rw [aggregate_cons hs] at h
      obtain rfl : rec = finalize ts (validResults l) b rest
          (rest.foldl mergeStep (initState b)) := (Option.some.inj h).symm
      obtain ⟨p1, p2, -, -, p5⟩ := aggregateCore_presence l _ (aggregateCore_cons hs)
      refine ⟨fun hall => ?_, fun hall => ?_, fun hall => ?_⟩
      · show orDefault (rest.foldl mergeStep (initState b)).merchant_name "Unknown"
          = "Unknown"
        apply orDefault_of_false
        cases hb : strPresent (rest.foldl mergeStep (initState b)).merchant_name
        · rfl
        · obtain ⟨x, hm, hx⟩ := p1.mp hb
          exact absurd hx (by simp [hall x hm])
      · show orDefault (rest.foldl mergeStep (initState b)).transaction_date
            "Unknown" = "Unknown"
        apply orDefault_of_false
        cases hb : strPresent (rest.foldl mergeStep (initState b)).transaction_date
        · rfl
        · obtain ⟨x, hm, hx⟩ := p2.mp hb
          exact absurd hx (by simp [hall x hm])
      · show orDefault (rest.foldl mergeStep (initState b)).currency "USD" = "USD"
        apply orDefault_of_false
        cases hb : strPresent (rest.foldl mergeStep (initState b)).currency
        · rfl
        · obtain ⟨x, hm, hx⟩ := p5.mp hb
          exact absurd hx (by simp [hall x hm])

theorem empty_string_as_absent_witness :
    (finalScore { rA with merchant_name := some "" } =
      finalScore { rA with merchant_name := none }) ∧
    (finalScore { rA with transaction_date := some "" } =
      finalScore { rA with transaction_date := none }) ∧
    (finalScore { rA with transaction_time := some "" } =
      finalScore { rA with transaction_time := none }) ∧
    (finalScore { rA with currency := some "" } =
      finalScore { rA with currency := none }) ∧
    ((aggregateCore [rE0]).getD mergeStateDefault).merchant_name = some "" ∧
    ((aggregateCore [rE0]).getD mergeStateDefault).fs_merchant_name = none ∧
    ((aggregateCore [rE0]).getD mergeStateDefault).transaction_date = some "" ∧
    ((aggregateCore [rE0]).getD mergeStateDefault).fs_transaction_date = none ∧
    ((aggregateCore [rE0]).getD mergeStateDefault).transaction_time = some "" ∧
    ((aggregateCore [rE0]).getD mergeStateDefault).fs_transaction_time = none ∧
    ((aggregateCore [rE0]).getD mergeStateDefault).currency = some "" ∧
    ((aggregateCore [rE0]).getD mergeStateDefault).fs_currency = none ∧
    (rE0.merchant_name = some "" ∧ strPresent rFull.merchant_name = true ∧
      strPresent
        ((aggregateCore [rFull, rE0]).getD mergeStateDefault).merchant_name
        = true) ∧
    (rE0.transaction_date = some "" ∧ strPresent rFull.transaction_date = true ∧
      strPresent
        ((aggregateCore [rFull, rE0]).getD mergeStateDefault).transaction_date
        = true) ∧
    (rE0.transaction_time = some "" ∧ strPresent rFull.transaction_time = true ∧
      strPresent
        ((aggregateCore [rFull, rE0]).getD mergeStateDefault).transaction_time
        = true) ∧
    (rE0.currency = some "" ∧ strPresent rFull.currency = true ∧
      strPresent ((aggregateCore [rFull, rE0]).getD mergeStateDefault).currency
        = true) ∧
    ((aggregate "t" [rE0]).getD recDefault).merchant_name = "Unknown" ∧
    ((aggregate "t" [rE0]).getD recDefault).transaction_date = "Unknown" ∧
    ((aggregate "t" [rE0]).getD recDefault).currency = "USD" := by
  have hA := empty_string_as_absent.2.1 [rE0] _
    (aggregateCore_getD [rE0] (by decide))
  have hG := empty_string_as_absent.2.2.1 [rFull, rE0] rE0 [rFull] _ rFull
    (by rw [sorted_E0Full]) (aggregateCore_getD [rFull, rE0] (by decide))
    (by simp)
  have hD := empty_string_as_absent.2.2.2 "t" [rE0] _
    (aggregate_getD "t" [rE0] (by decide))
  obtain ⟨s1, s2, s3, s4⟩ := empty_string_as_absent.1 rA
  exact ⟨s1, s2, s3, s4,
    by decide, hA.1 (by decide), by decide, hA.2.1 (by decide),
    by decide, hA.2.2.1 (by decide), by decide, hA.2.2.2 (by decide),
    ⟨by decide, by decide, hG.1 (by decide) (by decide)⟩,
    ⟨by decide, by decide, hG.2.1 (by decide) (by decide)⟩,
    ⟨by decide, by decide, hG.2.2.1 (by decide) (by decide)⟩,
    ⟨by decide, by decide, hG.2.2.2 (by decide) (by decide)⟩,
    hD.1 (by decide), hD.2.1 (by decide), hD.2.2 (by decide)⟩

end Receipts
